import Mathlib

/-!
Container library: set, map and multimap.

A shallow embedding of the three Go containers of the repository

* `set/set.go`            : the `set` struct behind the `Set` interface,
* `smap/smap.go`          : the `SyncMap` struct behind the `Map` interface,
* `smap/mulitmap/mmap.go` : the `multiMap` struct behind the `MultiMap` interface,

followed by the theorems that settle the claims of the specification.

Modelling conventions:

* A Go `map[K]V` that was created by `make` is an association list with pairwise distinct
  keys (`GoMap K V`).  The order of the entries stands for the order in which a `range`
  loop visits the map; every theorem quantifies over the whole `GoMap`, hence over every
  such order.
* `K` is the type of the hashable dynamic values that are equal to themselves and can be
  used as a key of type `interface{}`; equality on it is decidable.  Hashable values that
  are not equal to themselves (a float64 NaN) are the subject of the part on `WithNaN`,
  whose `SyncMap` and `set` accept them as keys and agree with the definitions on `K`
  where no such key is involved.
* A variable of map type may also hold the nil map; such a variable is a `MapRef K V`.
* Methods have pointer receivers and mutate in place: a method is a function from the state
  before the call to the result together with the state after the call.
* The Go type `int` is modelled by `Int`; the only arithmetic on it, `totalLen++`, wraps
  around as on a 64-bit target (`wrapInt`).  `len` of a map is a list length.
* `lock`, `unlock`, `rLock` and `rUnlock` only touch the mutex; in a sequential execution
  they neither block nor change the data, so they do not appear in the state functions.
  What a mutating method does with the mutex is a separate list of `MutexEvent`s.
* A run-time panic is a value of `Panic`; code that can reach a panicking statement returns
  `Except Panic _`.
* The methods of `set` are also given on arbitrary values of type `interface{}` (`Dyn K`),
  where a value of an unhashable dynamic type makes a map operation panic, and on a store
  of `set` structs addressed by pointer (`SetStore K`), where the cells a call writes are
  explicit.  Both agree with the state functions, which is proved below.
-/

/-! ## Go maps -/

/-- A Go map created by `make`: finitely many entries with pairwise distinct keys. -/
abbrev GoMap (K V : Type) := AList (fun _ : K => V)

/-- The value of a variable of map type: `none` is the nil map. -/
abbrev MapRef (K V : Type) := Option (GoMap K V)

/-- The run-time panics that the modelled code can raise. -/
inductive Panic where
  /-- A method call through a nil interface value. -/
  | nilDereference
  /-- The statement `m[k] = v` on a nil map `m`. -/
  | nilMapAssign
  /-- A map operation whose key of type `interface{}` holds a value of an unhashable dynamic
  type (a slice, a map or a function). -/
  | unhashableKey
  deriving DecidableEq

/-- The Go type `int` on a 64-bit target: two's-complement wrap-around. -/
def wrapInt (x : Int) : Int := (x + 2 ^ 63) % 2 ^ 64 - 2 ^ 63

section GoMapOps

variable {K V : Type} [DecidableEq K]

/-- The expression `make(map[K]V)`. -/
def GoMap.make : GoMap K V := ∅

/-- The expression `len(m)`. -/
def GoMap.len (m : GoMap K V) : Int := (m.entries.length : Int)

/-- The comma-ok index expression `v, ok := m[k]` on a map variable: `none` when `ok` is
false, which is always the case on the nil map. -/
def MapRef.index (m : MapRef K V) (k : K) : Option V :=
  match m with
  | none => none
  | some a => a.lookup k

/-- The expression `len(m)` on a map variable; the nil map has length 0. -/
def MapRef.len (m : MapRef K V) : Int :=
  match m with
  | none => 0
  | some a => GoMap.len a

/-- The statement `m[k] = v` on a map variable: a panic on the nil map. -/
def MapRef.assign (m : MapRef K V) (k : K) (v : V) : Except Panic (GoMap K V) :=
  match m with
  | none => Except.error Panic.nilMapAssign
  | some a => Except.ok (a.insert k v)

/-- The keys visited by `for k := range m` on a map variable; none on the nil map. -/
def MapRef.rangeKeys (m : MapRef K V) : List K :=
  match m with
  | none => []
  | some a => a.keys

end GoMapOps

/-! ## `smap/mulitmap/mmap.go` -/

/-- The struct `multiMap`: `m map[interface{}]map[interface{}]bool` and `totalLen int`. -/
structure multiMap (K V : Type) where
  m : GoMap K (GoMap V Bool)
  totalLen : Int

section MultiMap

variable {K V : Type} [DecidableEq K] [DecidableEq V]

/-- The function `NewMultiMap`: it builds a `multiMap` with a fresh map and then executes
`return nil`, so the `MultiMap` interface value it returns is nil (`none`). -/
def NewMultiMap : Option (multiMap K V) :=
  let mmap : multiMap K V := { m := GoMap.make, totalLen := 0 }
  let _mmap := mmap
  none

/-- A method call through a `MultiMap` interface value: a nil-dereference panic when the
interface value is nil. -/
def MultiMap.call {α : Type} (i : Option (multiMap K V)) (method : multiMap K V → α) :
    Except Panic α :=
  match i with
  | none => Except.error Panic.nilDereference
  | some mmap => Except.ok (method mmap)

/-- The method `multiMap.Set`.  After `valueMap, error := source[key]` the variable `error`
is true when `key` is present.  In the branch `!error` the key is absent, so `valueMap` is
the nil map; in the `else` branch a fresh value map holding only `value` replaces the one
stored under `key`. -/
def multiMap.Set (mmap : multiMap K V) (key : K) (value : V) :
    Except Panic (Bool × multiMap K V) :=
  let source := mmap.m
  match source.lookup key with
  | none =>
    let valueMap : MapRef V Bool := none
    let err : Bool := (MapRef.index valueMap value).isSome
    if err then
      match MapRef.assign valueMap value true with
      | Except.error p => Except.error p
      | Except.ok _ => Except.ok (true, { mmap with totalLen := wrapInt (mmap.totalLen + 1) })
    else
      Except.ok (false, mmap)
  | some _ =>
    let valueMap : GoMap V Bool := (GoMap.make).insert value true
    Except.ok (true, { m := source.insert key valueMap,
                       totalLen := wrapInt (mmap.totalLen + 1) })

/-- The method `multiMap.Remove`: `error` is true when `key` is present, the key is deleted,
and `!error` is returned.  `totalLen` is not touched. -/
def multiMap.Remove (mmap : multiMap K V) (key : K) : Bool × multiMap K V :=
  let source := mmap.m
  let error : Bool := (source.lookup key).isSome
  (!error, { mmap with m := source.erase key })

/-- The method `multiMap.RemoveAll`: every key is deleted and then `len(source) > 0` is
returned.  `totalLen` is not touched. -/
def multiMap.RemoveAll (mmap : multiMap K V) : Bool × multiMap K V :=
  let source := mmap.m.keys.foldl (fun s k => s.erase k) mmap.m
  (decide (GoMap.len source > 0), { mmap with m := source })

/-- The method `multiMap.Exists`: 0 when `key` is present (`error` true), otherwise the
length of `valueMap`, which is then the nil map. -/
def multiMap.Exists (mmap : multiMap K V) (key : K) : Int :=
  let source := mmap.m
  match source.lookup key with
  | some _ => 0
  | none =>
    let valueMap : MapRef V Bool := none
    MapRef.len valueMap

/-- The method `multiMap.Contains`: false at the first key that is not present. -/
def multiMap.Contains (mmap : multiMap K V) : List K → Bool
  | [] => true
  | k :: keys => if (mmap.m.lookup k).isSome then multiMap.Contains mmap keys else false

/-- The method `multiMap.Len`. -/
def multiMap.Len (mmap : multiMap K V) : Int := mmap.totalLen

/-- The method `multiMap.Value`: the values ranged over in `source[key]`, which is the nil
map when `key` is absent. -/
def multiMap.Value (mmap : multiMap K V) (key : K) : List V :=
  let source := mmap.m
  MapRef.rangeKeys (source.lookup key)

/-- The method `multiMap.Keys`. -/
def multiMap.Keys (mmap : multiMap K V) : List K := mmap.m.keys

/-- The number of (key, value) pairs stored across all keys of a multimap. -/
def multiMap.pairCount (mmap : multiMap K V) : Int :=
  (mmap.m.entries.map (fun e => GoMap.len e.2)).sum

end MultiMap

/-- A multimap with a fresh empty map and counter 0: the struct that `NewMultiMap` builds
before it returns nil. -/
def emptyMultiMap : multiMap String String := { m := GoMap.make, totalLen := 0 }

/-- The value map holding exactly the given values. -/
def valueMapOf (vs : List String) : GoMap String Bool :=
  vs.foldl (fun a v => a.insert v true) GoMap.make

/-- A multimap holding `"v1"` and `"v2"` under `"k"`, with counter 2. -/
def twoValueMultiMap : multiMap String String :=
  { m := (GoMap.make).insert "k" (valueMapOf ["v1", "v2"]), totalLen := 2 }

/-- A multimap holding `"v1"` under `"k"`, with counter 1. -/
def oneValueMultiMap : multiMap String String :=
  { m := (GoMap.make).insert "k" (valueMapOf ["v1"]), totalLen := 1 }

/-! ## `set/set.go` -/

/-- The struct `set`: the map `m map[interface{}]struct{}` and the flag `block`; the mutex
`rw` carries no data. -/
structure set (K : Type) where
  m : GoMap K Unit
  block : Bool

section SetOps

variable {K : Type} [DecidableEq K]

/-- The method `set.Add`: `this.m[v] = struct{}{}` for each of the values in turn, for
values that are equal to themselves; `WithNaN.set.Add` is the method on every hashable
value. -/
def set.Add (this : set K) (values : List K) : set K :=
  values.foldl (fun s v => { s with m := s.m.insert v () }) this

/-- The method `set.Remove`: `delete(this.m, v)` for each of the values in turn. -/
def set.Remove (this : set K) (values : List K) : set K :=
  values.foldl (fun s v => { s with m := s.m.erase v }) this

/-- The method `set.RemoveAll`: `delete(this.m, k)` for each key the loop visits. -/
def set.RemoveAll (this : set K) : set K :=
  this.m.keys.foldl (fun s k => { s with m := s.m.erase k }) this

/-- The method `set.Exists`: the flag `found` of `_, found := this.m[v]`. -/
def set.Exists (this : set K) (v : K) : Bool :=
  (this.m.lookup v).isSome

/-- The method `set.Contains`: false at the first value that is not found, true when the
loop runs to its end. -/
def set.Contains (this : set K) : List K → Bool
  | [] => true
  | v :: values => if (this.m.lookup v).isSome then set.Contains this values else false

/-- The method `set.len`. -/
def set.len (this : set K) : Int := GoMap.len this.m

/-- The method `set.Len`. -/
def set.Len (this : set K) : Int := this.len

/-- The method `set.Values`: the keys in the order the loop visits them. -/
def set.Values (this : set K) : List K := this.m.keys

/-- The function `newSet`. -/
def newSet (block : Bool) (values : List K) : set K :=
  let s : set K := { m := GoMap.make, block := block }
  if values.length > 0 then s.Add values else s

/-- The function `NewSet`. -/
def NewSet (values : List K) : set K := newSet false values

/-- The function `NewBlockSet`. -/
def NewBlockSet (values : List K) : set K := newSet true values

/-- The method `set.Intersect`: each value of `s.Values()` that is a key of `this.m` is
added to a fresh set. -/
def set.Intersect (this s : set K) : set K :=
  let ns : set K := NewSet []
  let vs := s.Values
  vs.foldl (fun ns v => if (this.m.lookup v).isSome then ns.Add [v] else ns) ns

/-- The method `set.Union`: the values of `this` and then those of `s` are added to a fresh
set. -/
def set.Union (this s : set K) : set K :=
  let ns : set K := NewSet []
  let ns := ns.Add this.Values
  ns.Add s.Values

/-- The method `set.Difference`: each key of `this.m` with `!s.Contains(k)` is added to a
fresh set. -/
def set.Difference (this s : set K) : set K :=
  let ns : set K := NewSet []
  this.m.keys.foldl (fun ns k => if !(s.Contains [k]) then ns.Add [k] else ns) ns

end SetOps

/-! ## `smap/smap.go` -/

/-- The struct `SyncMap`: the map `M map[interface{}]interface{}` and the flag `Block`; the
mutex `Mu` carries no data.  The value type `V` stands for `interface{}`, whose zero value
nil is `default`. -/
structure SyncMap (K V : Type) where
  M : GoMap K V
  Block : Bool

section SyncMapOps

variable {K V : Type} [DecidableEq K]

/-- The function `New`. -/
def New (block : Bool) : SyncMap K V := { M := GoMap.make, Block := block }

/-- The method `SyncMap.Set`: `this.M[key] = value`, for a key that is equal to itself;
`WithNaN.SyncMap.Set` is the method on every hashable key. -/
def SyncMap.Set (this : SyncMap K V) (key : K) (value : V) : SyncMap K V :=
  { this with M := this.M.insert key value }

/-- The method `SyncMap.Remove`: `delete(this.M, key)`. -/
def SyncMap.Remove (this : SyncMap K V) (key : K) : SyncMap K V :=
  { this with M := this.M.erase key }

/-- The method `SyncMap.RemoveAll`: `delete(this.M, k)` for each key the loop visits. -/
def SyncMap.RemoveAll (this : SyncMap K V) : SyncMap K V :=
  this.M.keys.foldl (fun s k => { s with M := s.M.erase k }) this

/-- The method `SyncMap.Exists`: the flag `found` of `_, found := this.M[key]`. -/
def SyncMap.Exists (this : SyncMap K V) (key : K) : Bool :=
  (this.M.lookup key).isSome

/-- The method `SyncMap.Contains`. -/
def SyncMap.Contains (this : SyncMap K V) : List K → Bool
  | [] => true
  | k :: keys => if (this.M.lookup k).isSome then SyncMap.Contains this keys else false

/-- The method `SyncMap.len`. -/
def SyncMap.len (this : SyncMap K V) : Int := GoMap.len this.M

/-- The method `SyncMap.Len`. -/
def SyncMap.Len (this : SyncMap K V) : Int := this.len

/-- The method `SyncMap.Value`: the index expression `this.M[key]`, which is the zero value
when `key` is absent. -/
def SyncMap.Value [Inhabited V] (this : SyncMap K V) (key : K) : V :=
  match this.M.lookup key with
  | some v => v
  | none => default

/-- The method `SyncMap.Keys`. -/
def SyncMap.Keys (this : SyncMap K V) : List K := this.M.keys

/-- The method `SyncMap.Values`. -/
def SyncMap.Values (this : SyncMap K V) : List V := this.M.entries.map (fun e => e.2)

end SyncMapOps

/-! ## `smap/smap.go`: iteration -/

/-- The struct `MapValue`. -/
structure MapValue (K V : Type) where
  Key : K
  Value : V

/-- What the producer goroutine of `Iter` does on the channel `iv`: it sends a value, or it
closes the channel. -/
inductive ChanEvent (α : Type) where
  | send (a : α)
  | close

/-- The values a consumer receives when it reads the channel until it is closed: `some` of
them when the producer closes the channel, and `none` when the events end without a
`close`, in which case the consumer blocks forever and the drain never finishes. -/
def drainChan {α : Type} : List (ChanEvent α) → Option (List α)
  | [] => none
  | ChanEvent.close :: _ => some []
  | ChanEvent.send a :: rest =>
    match drainChan rest with
    | none => none
    | some received => some (a :: received)

/-- The map built by `New(false)` followed by `Set("a", 1)`, `Set("b", 2)`, `Set("c", 3)`. -/
def abcSyncMap : SyncMap String (Option Int) :=
  (((New false).Set "a" (some 1)).Set "b" (some 2)).Set "c" (some 3)

/-! ## `set/set.go` on arbitrary values of type `interface{}` -/

/-- A value of type `interface{}` as the operations on a `map[interface{}]T` see it: a
value of a hashable dynamic type, which is one of the keys `K`, or a value of an unhashable
dynamic type such as a slice or a map. -/
inductive Dyn (K : Type) where
  | hashable (k : K)
  | unhashable

section SetDyn

variable {K : Type} [DecidableEq K]

/-- The method `set.Add` on arbitrary values: the assignment `this.m[v] = struct{}{}`
panics when `v` is unhashable. -/
def set.AddDyn (this : set K) : List (Dyn K) → Except Panic (set K)
  | [] => Except.ok this
  | Dyn.unhashable :: _ => Except.error Panic.unhashableKey
  | Dyn.hashable k :: values => set.AddDyn { this with m := this.m.insert k () } values

/-- The method `set.Remove` on arbitrary values: `delete(this.m, v)` panics when `v` is
unhashable. -/
def set.RemoveDyn (this : set K) : List (Dyn K) → Except Panic (set K)
  | [] => Except.ok this
  | Dyn.unhashable :: _ => Except.error Panic.unhashableKey
  | Dyn.hashable k :: values => set.RemoveDyn { this with m := this.m.erase k } values

/-- The method `set.Exists` on an arbitrary value: the index expression `this.m[v]` panics
when `v` is unhashable. -/
def set.ExistsDyn (this : set K) : Dyn K → Except Panic Bool
  | Dyn.unhashable => Except.error Panic.unhashableKey
  | Dyn.hashable k => Except.ok (this.m.lookup k).isSome

/-- The method `set.Contains` on arbitrary values. -/
def set.ContainsDyn (this : set K) : List (Dyn K) → Except Panic Bool
  | [] => Except.ok true
  | Dyn.unhashable :: _ => Except.error Panic.unhashableKey
  | Dyn.hashable k :: values =>
    if (this.m.lookup k).isSome then set.ContainsDyn this values else Except.ok false

/-- The method `set.Values` with its result type `[]interface{}`: every element is a key of
the map. -/
def set.ValuesDyn (this : set K) : List (Dyn K) := this.m.keys.map Dyn.hashable

/-- The loop of `set.Intersect` over `vs`: `_, exists := this.m[v]` and then `ns.Add(v)`. -/
def set.IntersectLoop (this : set K) (ns : set K) : List (Dyn K) → Except Panic (set K)
  | [] => Except.ok ns
  | v :: vs =>
    match this.ExistsDyn v with
    | Except.error p => Except.error p
    | Except.ok found =>
      if found then
        match ns.AddDyn [v] with
        | Except.error p => Except.error p
        | Except.ok ns2 => set.IntersectLoop this ns2 vs
      else set.IntersectLoop this ns vs

/-- The method `set.Intersect` with the panics of the calls it makes. -/
def set.IntersectDyn (this s : set K) : Except Panic (set K) :=
  let ns : set K := NewSet []
  let vs := s.ValuesDyn
  set.IntersectLoop this ns vs

/-- The method `set.Union` with the panics of the calls it makes. -/
def set.UnionDyn (this s : set K) : Except Panic (set K) :=
  let ns : set K := NewSet []
  match ns.AddDyn this.ValuesDyn with
  | Except.error p => Except.error p
  | Except.ok ns2 => ns2.AddDyn s.ValuesDyn

/-- The loop of `set.Difference` over the keys of `this.m`: `!s.Contains(k)` and then
`ns.Add(k)`. -/
def set.DifferenceLoop (s : set K) (ns : set K) : List (Dyn K) → Except Panic (set K)
  | [] => Except.ok ns
  | k :: ks =>
    match s.ContainsDyn [k] with
    | Except.error p => Except.error p
    | Except.ok found =>
      if !found then
        match ns.AddDyn [k] with
        | Except.error p => Except.error p
        | Except.ok ns2 => set.DifferenceLoop s ns2 ks
      else set.DifferenceLoop s ns ks

/-- The method `set.Difference` with the panics of the calls it makes. -/
def set.DifferenceDyn (this s : set K) : Except Panic (set K) :=
  let ns : set K := NewSet []
  set.DifferenceLoop s ns (this.m.keys.map Dyn.hashable)

end SetDyn

/-! ## Use of the mutex by the mutating methods -/

/-- What a method does, in order, with the mutex and with the map of its container. -/
inductive MutexEvent where
  /-- The call `Lock()` of the `sync.RWMutex`: the exclusive lock is acquired. -/
  | Lock
  /-- The call `Unlock()`. -/
  | Unlock
  /-- The call `RLock()`: the shared lock is acquired. -/
  | RLock
  /-- The call `RUnlock()`. -/
  | RUnlock
  /-- A statement that changes the map: `m[k] = v` or `delete(m, k)`. -/
  | Write
  deriving DecidableEq

/-- How the mutex is held by the running method. -/
inductive Held where
  | free
  | shared
  | exclusive
  deriving DecidableEq

/-- Whether every `Write` of a sequence of events happens while the exclusive lock is held,
when the sequence starts with the mutex held as given. -/
def writesExclusive : Held → List MutexEvent → Bool
  | _, [] => true
  | _, MutexEvent.Lock :: es => writesExclusive Held.exclusive es
  | _, MutexEvent.Unlock :: es => writesExclusive Held.free es
  | _, MutexEvent.RLock :: es => writesExclusive Held.shared es
  | _, MutexEvent.RUnlock :: es => writesExclusive Held.free es
  | h, MutexEvent.Write :: es => decide (h = Held.exclusive) && writesExclusive h es

section MutexSet

variable {K : Type}

/-- The method `set.lock`. -/
def set.lock (this : set K) : List MutexEvent :=
  if this.block then [MutexEvent.Lock] else []

/-- The method `set.unlock`. -/
def set.unlock (this : set K) : List MutexEvent :=
  if this.block then [MutexEvent.Unlock] else []

/-- The method `set.rLock`. -/
def set.rLock (this : set K) : List MutexEvent :=
  if this.block then [MutexEvent.RLock] else []

/-- The method `set.rUnlock`. -/
def set.rUnlock (this : set K) : List MutexEvent :=
  if this.block then [MutexEvent.RUnlock] else []

/-- The events of `set.Add`: `this.lock()`, one assignment for each value, and the deferred
`this.unlock()`. -/
def set.AddEvents (this : set K) (values : List K) : List MutexEvent :=
  this.lock ++ values.map (fun _ => MutexEvent.Write) ++ this.unlock

/-- The events of `set.Remove`: `this.lock()`, one `delete` for each value, and the deferred
`this.unlock()`. -/
def set.RemoveEvents (this : set K) (values : List K) : List MutexEvent :=
  this.lock ++ values.map (fun _ => MutexEvent.Write) ++ this.unlock

/-- The events of `set.RemoveAll`: `this.lock()`, one `delete` for each key, and the
deferred `this.unlock()`. -/
def set.RemoveAllEvents (this : set K) : List MutexEvent :=
  this.lock ++ this.m.keys.map (fun _ => MutexEvent.Write) ++ this.unlock

end MutexSet

section MutexSyncMap

variable {K V : Type}

/-- The method `SyncMap.lock`. -/
def SyncMap.lock (this : SyncMap K V) : List MutexEvent :=
  if this.Block then [MutexEvent.Lock] else []

/-- The method `SyncMap.unlock`. -/
def SyncMap.unlock (this : SyncMap K V) : List MutexEvent :=
  if this.Block then [MutexEvent.Unlock] else []

/-- The method `SyncMap.rLock`. -/
def SyncMap.rLock (this : SyncMap K V) : List MutexEvent :=
  if this.Block then [MutexEvent.RLock] else []

/-- The method `SyncMap.rUnlock`. -/
def SyncMap.rUnlock (this : SyncMap K V) : List MutexEvent :=
  if this.Block then [MutexEvent.RUnlock] else []

/-- The events of `SyncMap.Set`: `this.lock()`, the assignment, the deferred
`this.unlock()`. -/
def SyncMap.SetEvents (this : SyncMap K V) (_key : K) (_value : V) : List MutexEvent :=
  this.lock ++ [MutexEvent.Write] ++ this.unlock

/-- The events of `SyncMap.Remove`: `this.rLock()`, the `delete`, the deferred
`this.rUnlock()`. -/
def SyncMap.RemoveEvents (this : SyncMap K V) (_key : K) : List MutexEvent :=
  this.rLock ++ [MutexEvent.Write] ++ this.rUnlock

/-- The events of `SyncMap.RemoveAll`: `this.lock()`, one `delete` for each key, the
deferred `this.unlock()`. -/
def SyncMap.RemoveAllEvents (this : SyncMap K V) : List MutexEvent :=
  this.lock ++ this.M.keys.map (fun _ => MutexEvent.Write) ++ this.unlock

end MutexSyncMap

/-- The guarded map built by `New(true)` followed by `Set("a", 1)`. -/
def guardedSyncMap : SyncMap String (Option Int) := (New true).Set "a" (some 1)

/-! ## `smap/mulitmap/mmap.go`: value sets and sequences of calls -/

section MultiMapCalls

variable {K V : Type} [DecidableEq K] [DecidableEq V]

/-- Whether every key that is present in the multimap has a non-empty value set. -/
def multiMap.valueSetsNonEmpty (mmap : multiMap K V) : Bool :=
  mmap.m.entries.all (fun e => decide (0 < GoMap.len e.2))

/-- A call of one of the three mutating methods of the multimap. -/
inductive MultiMapCall (K V : Type) where
  | Set (key : K) (value : V)
  | Remove (key : K)
  | RemoveAll

/-- Whether a call is a call of `Set`. -/
def MultiMapCall.isSet : MultiMapCall K V → Bool
  | MultiMapCall.Set _ _ => true
  | _ => false

/-- What a call returns on a multimap whose map is empty: `Set` finds the key absent and
returns false, `Remove` finds it absent and returns true, `RemoveAll` returns false. -/
def emptyResult : MultiMapCall K V → Bool
  | MultiMapCall.Remove _ => true
  | _ => false

/-- One call on a multimap: the boolean it returns and the state after it. -/
def multiMap.perform (mmap : multiMap K V) :
    MultiMapCall K V → Except Panic (Bool × multiMap K V)
  | MultiMapCall.Set key value => mmap.Set key value
  | MultiMapCall.Remove key => Except.ok (mmap.Remove key)
  | MultiMapCall.RemoveAll => Except.ok mmap.RemoveAll

/-- A sequence of calls on a multimap, one after the other: the booleans they return, in
order, and the state after the last call. -/
def multiMap.run (mmap : multiMap K V) :
    List (MultiMapCall K V) → Except Panic (List Bool × multiMap K V)
  | [] => Except.ok ([], mmap)
  | c :: cs =>
    match mmap.perform c with
    | Except.error p => Except.error p
    | Except.ok (b, mmap2) =>
      match multiMap.run mmap2 cs with
      | Except.error p => Except.error p
      | Except.ok (bs, mmap3) => Except.ok (b :: bs, mmap3)

end MultiMapCalls

/-! ## `set/set.go` with the sets addressed by pointer -/

/-- The `set` structs that exist, addressed by pointer: a value of type `*set` is an index
into the store.  Every struct owns the map that `newSet` made for it, so a method that
changes the map of one struct updates the cell of that struct only. -/
abbrev SetStore (K : Type) := List (set K)

section SetStoreOps

variable {K : Type} [DecidableEq K]

/-- A method with receiver `p` that changes the struct it points to. -/
def SetStore.update (σ : SetStore K) (p : Nat) (f : set K → set K) : SetStore K :=
  match σ[p]? with
  | some s => σ.set p (f s)
  | none => σ

/-- The method `set.Add` called through the pointer `p`. -/
def SetStore.Add (σ : SetStore K) (p : Nat) (values : List K) : SetStore K :=
  σ.update p (fun s => s.Add values)

/-- The method `set.Remove` called through the pointer `p`. -/
def SetStore.Remove (σ : SetStore K) (p : Nat) (values : List K) : SetStore K :=
  σ.update p (fun s => s.Remove values)

/-- The method `set.RemoveAll` called through the pointer `p`. -/
def SetStore.RemoveAll (σ : SetStore K) (p : Nat) : SetStore K :=
  σ.update p (fun s => s.RemoveAll)

/-- The method `set.Values` called through the pointer `p`. -/
def SetStore.Values (σ : SetStore K) (p : Nat) : List K :=
  match σ[p]? with
  | some s => s.Values
  | none => []

/-- The index expression `_, exists := this.m[v]` through the pointer `p`. -/
def SetStore.Exists (σ : SetStore K) (p : Nat) (v : K) : Bool :=
  match σ[p]? with
  | some s => s.Exists v
  | none => false

/-- The method `set.Contains` called through the pointer `p`. -/
def SetStore.Contains (σ : SetStore K) (p : Nat) (values : List K) : Bool :=
  match σ[p]? with
  | some s => s.Contains values
  | none => false

/-- The function `newSet` in the store: `&set{}` is a new cell, whose address is returned. -/
def SetStore.newSet (σ : SetStore K) (block : Bool) (values : List K) : Nat × SetStore K :=
  let s := σ.length
  let σ1 := σ ++ [{ m := GoMap.make, block := block }]
  (s, if values.length > 0 then SetStore.Add σ1 s values else σ1)

/-- The function `NewSet` in the store. -/
def SetStore.NewSet (σ : SetStore K) (values : List K) : Nat × SetStore K :=
  SetStore.newSet σ false values

/-- The method `set.Intersect` with receiver `this` and argument `s`: the address of the
new set and the store after the call. -/
def SetStore.Intersect (σ : SetStore K) (this s : Nat) : Nat × SetStore K :=
  let new := SetStore.NewSet σ []
  let ns := new.1
  let vs := SetStore.Values new.2 s
  (ns, vs.foldl
    (fun σ v => if SetStore.Exists σ this v then SetStore.Add σ ns [v] else σ) new.2)

/-- The method `set.Union` with receiver `this` and argument `s`. -/
def SetStore.Union (σ : SetStore K) (this s : Nat) : Nat × SetStore K :=
  let new := SetStore.NewSet σ []
  let ns := new.1
  let σ2 := SetStore.Add new.2 ns (SetStore.Values new.2 this)
  (ns, SetStore.Add σ2 ns (SetStore.Values σ2 s))

/-- The method `set.Difference` with receiver `this` and argument `s`. -/
def SetStore.Difference (σ : SetStore K) (this s : Nat) : Nat × SetStore K :=
  let new := SetStore.NewSet σ []
  let ns := new.1
  let ks := SetStore.Values new.2 this
  (ns, ks.foldl
    (fun σ k => if !(SetStore.Contains σ s [k]) then SetStore.Add σ ns [k] else σ) new.2)

end SetStoreOps

/-- A store with two sets: `{1, 2, 3}` at address 0 and `{2, 3, 5}` at address 1. -/
def twoSetStore : SetStore Nat := [NewSet [1, 2, 3], NewSet [2, 3, 5]]

/-! ## Keys that are not equal to themselves

A value of a hashable dynamic type need not be equal to itself: a float64 NaN, or a struct or
array holding one, has `x != x`.  A Go map accepts such a key: `m[x] = v` adds a new entry
every time, no index expression and no `delete` finds that entry, and `len` and `range` do
see it.  The definitions of this part, under `WithNaN`, are the `SyncMap` and the `set` of
the source with such keys among the arguments and in the map. -/

/-- A value of a hashable dynamic type used as a key of type `interface{}`: a value that is
equal to itself (`val k`), or a value that is not, such as a float64 NaN (`nan bits`, where
`bits` tells two such values apart when they are read back from the map). -/
inductive IKey (K : Type) where
  | val (k : K)
  | nan (bits : Nat)
  deriving DecidableEq

/-- Whether a key is equal to itself, the Go expression `k == k`. -/
def IKey.selfEqual {K : Type} : IKey K → Bool
  | IKey.val _ => true
  | IKey.nan _ => false

/-- A Go map with key type `interface{}` that was created by `make`: the entries whose key is
equal to itself, with pairwise distinct keys (`table`), and the entries whose key is not
equal to itself (`loose`), each added by its own assignment. -/
structure IMap (K V : Type) where
  table : GoMap K V
  loose : List (Nat × V)

section IMapOps

variable {K V : Type} [DecidableEq K]

/-- The expression `make(map[interface{}]V)`. -/
def IMap.make : IMap K V := { table := GoMap.make, loose := [] }

/-- The comma-ok index expression `v, ok := m[k]`: a key that is not equal to itself is
never found. -/
def IMap.index (m : IMap K V) : IKey K → Option V
  | IKey.val k => m.table.lookup k
  | IKey.nan _ => none

/-- The statement `m[k] = v`: a key that is not equal to itself matches no entry, so a new
entry is added. -/
def IMap.assign (m : IMap K V) : IKey K → V → IMap K V
  | IKey.val k, v => { m with table := m.table.insert k v }
  | IKey.nan bits, v => { m with loose := (bits, v) :: m.loose }

/-- The statement `delete(m, k)`: a key that is not equal to itself matches no entry, so
nothing is deleted. -/
def IMap.delete (m : IMap K V) : IKey K → IMap K V
  | IKey.val k => { m with table := m.table.erase k }
  | IKey.nan _ => m

/-- The expression `len(m)`: every entry counts. -/
def IMap.len (m : IMap K V) : Int := GoMap.len m.table + (m.loose.length : Int)

/-- The entries that `for k, v := range m` visits: every entry once.  The order of the list
is one of the orders the loop may take; what is proved of it below (length, membership,
permutations) does not depend on the order. -/
def IMap.range (m : IMap K V) : List (IKey K × V) :=
  m.table.entries.map (fun e => (IKey.val e.1, e.2))
    ++ m.loose.map (fun e => (IKey.nan e.1, e.2))

end IMapOps

/-- The struct `SyncMap` with a map that may hold keys that are not equal to themselves. -/
structure WithNaN.SyncMap (K V : Type) where
  M : IMap K V
  Block : Bool

/-- The struct `set` with a map that may hold keys that are not equal to themselves. -/
structure WithNaN.set (K : Type) where
  m : IMap K Unit
  block : Bool

section WithNaNOps

variable {K V : Type} [DecidableEq K]

/-- The function `New`. -/
def WithNaN.New (block : Bool) : WithNaN.SyncMap K V := { M := IMap.make, Block := block }

/-- The method `SyncMap.Set`: `this.M[key] = value`. -/
def WithNaN.SyncMap.Set (this : WithNaN.SyncMap K V) (key : IKey K) (value : V) :
    WithNaN.SyncMap K V :=
  { this with M := this.M.assign key value }

/-- The method `SyncMap.Remove`: `delete(this.M, key)`. -/
def WithNaN.SyncMap.Remove (this : WithNaN.SyncMap K V) (key : IKey K) :
    WithNaN.SyncMap K V :=
  { this with M := this.M.delete key }

/-- The method `SyncMap.Exists`: the flag `found` of `_, found := this.M[key]`. -/
def WithNaN.SyncMap.Exists (this : WithNaN.SyncMap K V) (key : IKey K) : Bool :=
  (this.M.index key).isSome

/-- The method `SyncMap.len`. -/
def WithNaN.SyncMap.len (this : WithNaN.SyncMap K V) : Int := IMap.len this.M

/-- The method `SyncMap.Len`. -/
def WithNaN.SyncMap.Len (this : WithNaN.SyncMap K V) : Int := this.len

/-- The method `SyncMap.Value`: the index expression `this.M[key]`, which is the zero value
when `key` is not found. -/
def WithNaN.SyncMap.Value [Inhabited V] (this : WithNaN.SyncMap K V) (key : IKey K) : V :=
  match this.M.index key with
  | some v => v
  | none => default

/-- The method `SyncMap.Iter`, as the channel events of its goroutine when the map is not
changed while the loop runs: `iv <- MapValue{k, v}` for each entry the loop over `this.M`
visits, then `close(iv)`. -/
def WithNaN.SyncMap.Iter (this : WithNaN.SyncMap K V) :
    List (ChanEvent (MapValue (IKey K) V)) :=
  this.M.range.map (fun e => ChanEvent.send { Key := e.1, Value := e.2 })
    ++ [ChanEvent.close]

/-- The method `set.Add`: `this.m[v] = struct{}{}` for each of the values in turn. -/
def WithNaN.set.Add (this : WithNaN.set K) (values : List (IKey K)) : WithNaN.set K :=
  values.foldl (fun s v => { s with m := s.m.assign v () }) this

/-- The method `set.Remove`: `delete(this.m, v)` for each of the values in turn. -/
def WithNaN.set.Remove (this : WithNaN.set K) (values : List (IKey K)) : WithNaN.set K :=
  values.foldl (fun s v => { s with m := s.m.delete v }) this

/-- The method `set.Exists`: the flag `found` of `_, found := this.m[v]`. -/
def WithNaN.set.Exists (this : WithNaN.set K) (v : IKey K) : Bool :=
  (this.m.index v).isSome

/-- The method `set.len`. -/
def WithNaN.set.len (this : WithNaN.set K) : Int := IMap.len this.m

/-- The method `set.Len`. -/
def WithNaN.set.Len (this : WithNaN.set K) : Int := this.len

/-- The method `set.Values`: the keys in the order the loop visits them. -/
def WithNaN.set.Values (this : WithNaN.set K) : List (IKey K) :=
  this.m.range.map (fun e => e.1)

/-- The function `newSet`. -/
def WithNaN.newSet (block : Bool) (values : List (IKey K)) : WithNaN.set K :=
  let s : WithNaN.set K := { m := IMap.make, block := block }
  if values.length > 0 then s.Add values else s

/-- The function `NewSet`. -/
def WithNaN.NewSet (values : List (IKey K)) : WithNaN.set K := WithNaN.newSet false values

end WithNaNOps

/-- A `SyncMap` whose keys are all equal to themselves, among the maps with keys of every
hashable dynamic type. -/
def SyncMap.toWithNaN {K V : Type} (this : SyncMap K V) : WithNaN.SyncMap K V :=
  { M := { table := this.M, loose := [] }, Block := this.Block }

/-- A `set` whose values are all equal to themselves, among the sets with values of every
hashable dynamic type. -/
def set.toWithNaN {K : Type} (this : set K) : WithNaN.set K :=
  { m := { table := this.m, loose := [] }, block := this.block }

/-- The map built by `New(false)` followed by `Set("a", 1)`, `Set("b", 2)`, `Set("c", 3)`,
with keys of any hashable dynamic type. -/
def abcMap : WithNaN.SyncMap String (Option Int) :=
  (((WithNaN.New false).Set (IKey.val "a") (some 1)).Set (IKey.val "b") (some 2)).Set
    (IKey.val "c") (some 3)

/-- The map built by `New(false)` followed by `Set(NaN, 1)`. -/
def nanMap : WithNaN.SyncMap String (Option Int) :=
  (WithNaN.New false).Set (IKey.nan 0) (some 1)

/-! ## Theorems -/

section SetBasics

variable {K : Type}

theorem set_len_eq_length (s : set K) : s.Len = (s.Values.length : Int) := by
  simp [set.Len, set.len, GoMap.len, set.Values, AList.keys, List.keys]

theorem set_values_nodup (s : set K) : s.Values.Nodup := s.m.keys_nodup

end SetBasics

section SetLemmas

variable {K : Type} [DecidableEq K]

theorem set_exists_iff_mem (s : set K) (x : K) : s.Exists x = true ↔ x ∈ s.m := by
  unfold set.Exists
  exact AList.lookup_isSome

theorem set_mem_values (s : set K) (x : K) : x ∈ s.Values ↔ s.Exists x = true := by
  rw [set_exists_iff_mem]
  exact AList.mem_keys.symm

theorem set_exists_newSet_nil (x : K) : (NewSet ([] : List K)).Exists x = false := by
  simp [NewSet, newSet, set.Exists, GoMap.make]

theorem set_exists_insert (s : set K) (v x : K) :
    ({ s with m := s.m.insert v () } : set K).Exists x = (decide (x = v) || s.Exists x) := by
  by_cases h : x = v
  · subst h
    simp [set.Exists, AList.lookup_insert]
  · simp [set.Exists, AList.lookup_insert_ne h, h]

theorem set_exists_add (s : set K) (vs : List K) (x : K) :
    (s.Add vs).Exists x = (s.Exists x || decide (x ∈ vs)) := by
  induction vs generalizing s with
  | nil => simp [set.Add]
  | cons v vs ih =>
    have step : s.Add (v :: vs) = ({ s with m := s.m.insert v () } : set K).Add vs := rfl
    rw [step, ih, set_exists_insert]
    by_cases h : x = v <;> simp [h, Bool.or_comm]

theorem set_exists_add_if (p : K → Bool) (ns : set K) (vs : List K) (x : K) :
    (vs.foldl (fun ns v => if p v then ns.Add [v] else ns) ns).Exists x
      = (ns.Exists x || (decide (x ∈ vs) && p x)) := by
  induction vs generalizing ns with
  | nil => simp
  | cons v vs ih =>
    rw [List.foldl_cons, ih]
    by_cases hp : p v = true
    · by_cases h : x = v
      · subst h; simp [hp, set_exists_add]
      · simp [hp, set_exists_add, h]
    · by_cases h : x = v
      · subst h; simp [hp]
      · simp [hp, h]

theorem set_contains_single (s : set K) (k : K) : s.Contains [k] = s.Exists k := by
  simp [set.Contains, set.Exists]

theorem set_exists_union (A B : set K) (x : K) :
    (A.Union B).Exists x = (A.Exists x || B.Exists x) := by
  unfold set.Union
  simp only [set_exists_add, set_exists_newSet_nil, Bool.false_or]
  have hA : decide (x ∈ A.Values) = A.Exists x := by
    rw [Bool.eq_iff_iff]; simp [set_mem_values]
  have hB : decide (x ∈ B.Values) = B.Exists x := by
    rw [Bool.eq_iff_iff]; simp [set_mem_values]
  rw [hA, hB]

theorem set_exists_intersect (A B : set K) (x : K) :
    (A.Intersect B).Exists x = (A.Exists x && B.Exists x) := by
  unfold set.Intersect
  have h := set_exists_add_if (fun v => (A.m.lookup v).isSome) (NewSet []) B.Values x
  simp only [] at h
  rw [h, set_exists_newSet_nil]
  have hB : decide (x ∈ B.Values) = B.Exists x := by
    rw [Bool.eq_iff_iff]; simp [set_mem_values]
  rw [hB]
  simp [set.Exists, Bool.and_comm]

theorem set_exists_difference (A B : set K) (x : K) :
    (A.Difference B).Exists x = (A.Exists x && !B.Exists x) := by
  unfold set.Difference
  have h := set_exists_add_if (fun k => !(B.Contains [k])) (NewSet []) A.m.keys x
  simp only [] at h
  rw [h, set_exists_newSet_nil]
  have hA : decide (x ∈ A.m.keys) = A.Exists x := by
    rw [Bool.eq_iff_iff]; simp [← set_mem_values, set.Values]
  rw [hA, set_contains_single]
  simp

theorem set_len_le_of_subset (s t : set K) (h : ∀ x, s.Exists x = true → t.Exists x = true) :
    s.Len ≤ t.Len := by
  rw [set_len_eq_length, set_len_eq_length]
  have hsub : s.Values ⊆ t.Values := by
    intro x hx
    exact (set_mem_values t x).2 (h x ((set_mem_values s x).1 hx))
  have := (List.subperm_of_subset (set_values_nodup s) hsub).length_le
  exact_mod_cast this

theorem set_values_perm_of_exists_eq (s t : set K) (h : ∀ x, s.Exists x = t.Exists x) :
    s.Values.Perm t.Values := by
  rw [List.perm_ext_iff_of_nodup (set_values_nodup s) (set_values_nodup t)]
  intro x
  rw [set_mem_values, set_mem_values, h]

theorem set_exists_remove_single (s : set K) (v x : K) :
    (s.Remove [v]).Exists x = (s.Exists x && decide (x ≠ v)) := by
  by_cases h : x = v
  · subst h
    simp [set.Remove, set.Exists, AList.lookup_erase]
  · simp [set.Remove, set.Exists, AList.lookup_erase_ne h, h]

end SetLemmas

section SyncMapLemmas

variable {K V : Type} [DecidableEq K]

theorem goMap_len_insert (m : GoMap K V) (k : K) (v : V) :
    GoMap.len (m.insert k v) = if (m.lookup k).isSome then GoMap.len m else GoMap.len m + 1 := by
  have hlen : ∀ a : GoMap K V, GoMap.len a = (a.keys.length : Int) := by
    intro a; simp [GoMap.len, AList.keys, List.keys]
  rw [hlen, hlen, AList.keys_insert]
  by_cases h : k ∈ m
  · have hk : k ∈ m.keys := AList.mem_keys.1 h
    have hpos : 0 < m.keys.length := List.length_pos_of_mem hk
    simp only [AList.lookup_isSome.2 h, if_true, List.length_cons, List.length_erase_of_mem hk]
    omega
  · have hk : k ∉ m.keys := fun hk => h (AList.mem_keys.2 hk)
    have hnone : (m.lookup k).isSome = false := by
      rw [AList.lookup_eq_none.2 h]; rfl
    simp [hnone, List.erase_of_not_mem hk]

end SyncMapLemmas

section ClaimTheorems

variable {K V : Type} [DecidableEq K]

/-- C1: the claim says that `Set` on an empty multimap returns true and stores the value.
The code returns false on the empty multimap and leaves it unchanged, so nothing is stored
under `"k"`; and where `"v1"` is already stored under `"k"` it returns true. -/
theorem multiMap_set_inverted :
    multiMap.Set emptyMultiMap "k" "v1" = Except.ok (false, emptyMultiMap)
    ∧ emptyMultiMap.Value "k" = []
    ∧ oneValueMultiMap.Value "k" = ["v1"]
    ∧ Except.map Prod.fst (multiMap.Set oneValueMultiMap "k" "v1") = Except.ok true := by
  refine ⟨rfl, rfl, rfl, rfl⟩

/-- C2: for all sets `A`, `B` and every value `x`, `A.Union(B).Exists(x)` is true if and
only if `A.Exists(x)` or `B.Exists(x)` is true. -/
theorem set_union_exists_iff (A B : set K) (x : K) :
    (A.Union B).Exists x = true ↔ (A.Exists x = true ∨ B.Exists x = true) := by
  rw [set_exists_union, Bool.or_eq_true]

/-- C3: for all sets `A`, `B` and every value `x`, `A.Intersect(B).Exists(x)` is true if and
only if `A.Exists(x)` and `B.Exists(x)` are both true, and
`A.Intersect(B).Len() <= min(A.Len(), B.Len())`. -/
theorem set_intersect_exists_iff_and_len (A B : set K) (x : K) :
    ((A.Intersect B).Exists x = true ↔ (A.Exists x = true ∧ B.Exists x = true))
    ∧ (A.Intersect B).Len ≤ min A.Len B.Len := by
  refine ⟨by rw [set_exists_intersect, Bool.and_eq_true], le_min ?_ ?_⟩
  · apply set_len_le_of_subset
    intro y hy
    rw [set_exists_intersect, Bool.and_eq_true] at hy
    exact hy.1
  · apply set_len_le_of_subset
    intro y hy
    rw [set_exists_intersect, Bool.and_eq_true] at hy
    exact hy.2

/-- C4: for all sets `A`, `B`: no value is both in `A.Difference(B)` and in `B`, and
`A.Difference(B).Union(A.Intersect(B))` has exactly the elements of `A`: `Exists` agrees
with that of `A` at every value, and `Values()` is a permutation of `A.Values()`. -/
theorem set_difference_disjoint_and_partition (A B : set K) (x : K) :
    ((A.Difference B).Exists x && B.Exists x) = false
    ∧ ((A.Difference B).Union (A.Intersect B)).Exists x = A.Exists x
    ∧ ((A.Difference B).Union (A.Intersect B)).Values.Perm A.Values := by
  have key : ∀ y, ((A.Difference B).Union (A.Intersect B)).Exists y = A.Exists y := by
    intro y
    rw [set_exists_union, set_exists_difference, set_exists_intersect]
    cases A.Exists y <;> cases B.Exists y <;> rfl
  refine ⟨?_, key x, set_values_perm_of_exists_eq _ _ key⟩
  rw [set_exists_difference]
  cases A.Exists x <;> cases B.Exists x <;> rfl

/-- C5, as stated, fails: on the set holding `1`, `Add(1)` followed by `Remove(1)` leaves
`Exists(1)` false although it was true before. -/
theorem set_add_remove_present_not_restored :
    (((NewSet [1] : set Nat).Add [1]).Remove [1]).Exists 1 ≠ (NewSet [1] : set Nat).Exists 1 := by
  decide

/-- C5, amended: for every set `S` and every value `v` that is not in `S`, `S.Add(v)`
followed by `S.Remove(v)` restores the prior membership state: `Exists(x)` after the two
calls equals `Exists(x)` before them, for every value `x`. -/
theorem set_add_remove_restores_of_absent (S : set K) (v : K) (h : S.Exists v = false)
    (x : K) : ((S.Add [v]).Remove [v]).Exists x = S.Exists x := by
  rw [set_exists_remove_single, set_exists_add]
  by_cases hx : x = v
  · subst hx; simp [h]
  · simp [hx]

/-- Witness of C5, amended: `1` is not in the set of `2` and `3`, and `Exists(2)` is the
same after `Add(1)` and `Remove(1)`. -/
theorem set_add_remove_restores_of_absent_witness :
    (NewSet [2, 3] : set Nat).Exists 1 = false
    ∧ (((NewSet [2, 3] : set Nat).Add [1]).Remove [1]).Exists 2
        = (NewSet [2, 3] : set Nat).Exists 2 :=
  ⟨by decide, set_add_remove_restores_of_absent (NewSet [2, 3]) 1 (by decide) 2⟩

/-- C6: the claim says that `Set`, `Remove` and `RemoveAll` keep `Len()` equal to the number
of stored pairs.  On the multimap with two values under `"k"`, where `Len()` and the number
of pairs are both 2, `Remove("k")` leaves no pair but `Len()` is still 2, and so does
`RemoveAll()`; on the multimap with one value under `"k"`, `Set("k", "v2")` leaves one pair
and `Len()` 2. -/
theorem multiMap_remove_keeps_totalLen :
    twoValueMultiMap.Len = 2
    ∧ twoValueMultiMap.pairCount = 2
    ∧ (multiMap.Remove twoValueMultiMap "k").2.pairCount = 0
    ∧ (multiMap.Remove twoValueMultiMap "k").2.Len = 2
    ∧ (multiMap.RemoveAll twoValueMultiMap).2.pairCount = 0
    ∧ (multiMap.RemoveAll twoValueMultiMap).2.Len = 2
    ∧ oneValueMultiMap.Len = 1
    ∧ oneValueMultiMap.pairCount = 1
    ∧ Except.map (fun r => (r.2.pairCount, r.2.Len)) (multiMap.Set oneValueMultiMap "k" "v2")
        = Except.ok (1, 2) := by
  refine ⟨by decide, by decide, by decide, by decide, by decide, by decide, by decide,
    by decide, rfl⟩

/-- C7: the claim says that `Remove` returns true exactly when the key was present.  The
code returns false for the present key `"k"` and true for the absent key `"k"` of the empty
multimap. -/
theorem multiMap_remove_result_inverted :
    twoValueMultiMap.Keys = ["k"]
    ∧ (multiMap.Remove twoValueMultiMap "k").1 = false
    ∧ emptyMultiMap.Keys = []
    ∧ (multiMap.Remove emptyMultiMap "k").1 = true := by
  decide

/-- C8: the claim says that `Exists` returns the number of values under the key.  With
`"v1"` and `"v2"` stored under `"k"` the code returns 0. -/
theorem multiMap_exists_zero_on_present_key :
    (twoValueMultiMap.Value "k").Perm ["v1", "v2"]
    ∧ twoValueMultiMap.Exists "k" = 0 := by
  decide

/-- C9: the claim says that `NewMultiMap` returns a usable non-nil container.  The code
returns the nil interface value, and a call of `Len`, `Keys`, `Exists`, `Remove` or `Set`
through it is a nil-dereference panic. -/
theorem newMultiMap_returns_nil :
    (NewMultiMap : Option (multiMap String String)) = none
    ∧ MultiMap.call (NewMultiMap : Option (multiMap String String)) multiMap.Len
        = Except.error Panic.nilDereference
    ∧ MultiMap.call (NewMultiMap : Option (multiMap String String)) multiMap.Keys
        = Except.error Panic.nilDereference
    ∧ MultiMap.call (NewMultiMap : Option (multiMap String String))
        (fun mmap => multiMap.Exists mmap "k") = Except.error Panic.nilDereference
    ∧ MultiMap.call (NewMultiMap : Option (multiMap String String))
        (fun mmap => multiMap.Remove mmap "k") = Except.error Panic.nilDereference
    ∧ MultiMap.call (NewMultiMap : Option (multiMap String String))
        (fun mmap => multiMap.Set mmap "k" "v1") = Except.error Panic.nilDereference := by
  refine ⟨rfl, rfl, rfl, rfl, rfl, rfl⟩

end ClaimTheorems
section LaterLemmas

variable {K V : Type} [DecidableEq K]

theorem goMap_erase_of_not_mem (m : GoMap K V) (k : K) (h : k ∉ m) : m.erase k = m := by
  apply AList.ext
  simp only [AList.erase]
  exact List.kerase_of_not_mem_keys (fun hk => h (AList.mem_keys.2 hk))

theorem set_exists_newSet (vs : List K) (x : K) : (NewSet vs).Exists x = decide (x ∈ vs) := by
  unfold NewSet newSet
  cases vs with
  | nil => simp [set.Exists, GoMap.make]
  | cons v vs =>
    simp only [List.length_cons, gt_iff_lt, Nat.zero_lt_succ, if_true, set_exists_add]
    simp [set.Exists, GoMap.make]

end LaterLemmas

section LaterClaimTheorems

variable {K V : Type} [DecidableEq K]

/-- C11: for every map `m` and key `k`: after `m.Remove(k)`, `Exists(k)` is false and
`Value(k)` is the zero value; every other key keeps its `Exists` and `Value`; and if `k`
was absent before the call the map is unchanged. -/
theorem syncMap_remove_deletes [Inhabited V] (m : SyncMap K V) (k : K) :
    (m.Remove k).Exists k = false
    ∧ (m.Remove k).Value k = default
    ∧ (∀ k2 : K, k2 ≠ k →
        (m.Remove k).Exists k2 = m.Exists k2 ∧ (m.Remove k).Value k2 = m.Value k2)
    ∧ (m.Exists k = false → m.Remove k = m) := by
  refine ⟨?_, ?_, ?_, ?_⟩
  · simp [SyncMap.Remove, SyncMap.Exists, AList.lookup_erase]
  · simp [SyncMap.Remove, SyncMap.Value, AList.lookup_erase]
  · intro k2 hk
    simp [SyncMap.Remove, SyncMap.Exists, SyncMap.Value, AList.lookup_erase_ne hk]
  · intro h
    have hk : k ∉ m.M := by
      intro hmem
      have := AList.lookup_isSome.2 hmem
      simp [SyncMap.Exists] at h
      simp [h] at this
    simp [SyncMap.Remove, goMap_erase_of_not_mem m.M k hk]

/-- Witness of C11: on the map holding `"a"`, `"b"` and `"c"`, `Remove("a")` makes
`Exists("a")` false and `Value("a")` nil, keeps the value of `"b"`, and `Remove("z")` of
the absent key `"z"` leaves the map unchanged. -/
theorem syncMap_remove_deletes_witness :
    (abcSyncMap.Remove "a").Exists "a" = false
    ∧ (abcSyncMap.Remove "a").Value "a" = none
    ∧ (abcSyncMap.Remove "a").Value "b" = some 2
    ∧ abcSyncMap.Remove "z" = abcSyncMap := by
  have ha := syncMap_remove_deletes abcSyncMap "a"
  have hz := syncMap_remove_deletes abcSyncMap "z"
  refine ⟨ha.1, ha.2.1, ?_, hz.2.2.2 (by decide)⟩
  rw [(ha.2.2.1 "b" (by decide)).2]
  decide

/-- C14: for every set `S` and list of values `vs`, `S.Contains(vs...)` is true if and only
if `S.Exists(v)` is true for every `v` in `vs`; `S.Contains()` without arguments is true. -/
theorem set_contains_iff_all (S : set K) (vs : List K) :
    (S.Contains vs = true ↔ ∀ v ∈ vs, S.Exists v = true)
    ∧ S.Contains [] = true := by
  refine ⟨?_, rfl⟩
  induction vs with
  | nil => simp [set.Contains]
  | cons v vs ih =>
    by_cases h : (S.m.lookup v).isSome = true
    · simp [set.Contains, set.Exists, h] at ih ⊢
      exact ih
    · simp [set.Contains, set.Exists, h]

/-- Witness of C14: the set of 1, 2, 3 contains 1 and 3, does not contain 1 and 4, and the
empty set contains the empty list of values. -/
theorem set_contains_iff_all_witness :
    (NewSet [1, 2, 3] : set Nat).Contains [1, 3] = true
    ∧ (NewSet [1, 2, 3] : set Nat).Contains [1, 4] = false
    ∧ (NewSet [] : set Nat).Contains [] = true := by
  refine ⟨?_, by decide, (set_contains_iff_all (NewSet []) []).2⟩
  rw [(set_contains_iff_all (NewSet [1, 2, 3]) [1, 3]).1]
  decide

/-- C15: the claim says that `RemoveAll` returns true when the multimap held a key.  On the
multimap holding the key `"k"` the code deletes every key and returns false. -/
theorem multiMap_removeAll_returns_false :
    twoValueMultiMap.Keys = ["k"]
    ∧ (multiMap.RemoveAll twoValueMultiMap).1 = false
    ∧ (multiMap.RemoveAll twoValueMultiMap).2.Keys = [] := by
  decide

end LaterClaimTheorems
section DynLemmas

variable {K : Type} [DecidableEq K]

theorem set_addDyn_hashable (S : set K) (ks : List K) :
    S.AddDyn (ks.map Dyn.hashable) = Except.ok (S.Add ks) := by
  induction ks generalizing S with
  | nil => rfl
  | cons k ks ih =>
    simp only [List.map_cons, set.AddDyn, ih]
    rfl

theorem set_removeDyn_hashable (S : set K) (ks : List K) :
    S.RemoveDyn (ks.map Dyn.hashable) = Except.ok (S.Remove ks) := by
  induction ks generalizing S with
  | nil => rfl
  | cons k ks ih =>
    simp only [List.map_cons, set.RemoveDyn, ih]
    rfl

theorem set_containsDyn_hashable (S : set K) (ks : List K) :
    S.ContainsDyn (ks.map Dyn.hashable) = Except.ok (S.Contains ks) := by
  induction ks with
  | nil => rfl
  | cons k ks ih =>
    simp only [List.map_cons, set.ContainsDyn, set.Contains, ih]
    split <;> rfl

theorem set_intersectLoop_hashable (A ns : set K) (ks : List K) :
    set.IntersectLoop A ns (ks.map Dyn.hashable)
      = Except.ok (ks.foldl (fun ns v => if (A.m.lookup v).isSome then ns.Add [v] else ns) ns) := by
  induction ks generalizing ns with
  | nil => rfl
  | cons k ks ih =>
    simp only [List.map_cons, set.IntersectLoop, set.ExistsDyn, List.foldl_cons]
    by_cases h : (A.m.lookup k).isSome = true
    · simp only [h, if_true]
      have hadd := set_addDyn_hashable ns [k]
      simp only [List.map_cons, List.map_nil] at hadd
      rw [hadd]
      exact ih _
    · simp only [h]
      exact ih _

theorem set_differenceLoop_hashable (B ns : set K) (ks : List K) :
    set.DifferenceLoop B ns (ks.map Dyn.hashable)
      = Except.ok (ks.foldl (fun ns k => if !(B.Contains [k]) then ns.Add [k] else ns) ns) := by
  induction ks generalizing ns with
  | nil => rfl
  | cons k ks ih =>
    have hc := set_containsDyn_hashable B [k]
    simp only [List.map_cons, List.map_nil] at hc
    simp only [List.map_cons, set.DifferenceLoop, hc, List.foldl_cons]
    by_cases h : B.Contains [k] = true
    · simp only [h]
      exact ih _
    · have h2 : B.Contains [k] = false := by simpa using h
      simp only [h2]
      have hadd := set_addDyn_hashable ns [k]
      simp only [List.map_cons, List.map_nil] at hadd
      simp only [Bool.not_false, if_true]
      rw [hadd]
      exact ih _

end DynLemmas

section DynClaimTheorems

variable {K : Type} [DecidableEq K]

/-- C16, as stated, fails: `Add` of a value of an unhashable dynamic type on the empty set
aborts with a run-time panic. -/
theorem set_add_unhashable_panics :
    set.AddDyn (NewSet [] : set Nat) [Dyn.unhashable] = Except.error Panic.unhashableKey := by
  rfl

/-- C16, amended: for every set and all input values of hashable dynamic types, `Add`,
`Remove`, `Exists` and `Contains` return normally, with the results of the panic-free
functions; and for all sets `A` and `B`, `Intersect`, `Union` and `Difference` return
normally. -/
theorem set_operations_total_on_hashable (A B : set K) (ks : List K) (k : K) :
    A.AddDyn (ks.map Dyn.hashable) = Except.ok (A.Add ks)
    ∧ A.RemoveDyn (ks.map Dyn.hashable) = Except.ok (A.Remove ks)
    ∧ A.ExistsDyn (Dyn.hashable k) = Except.ok (A.Exists k)
    ∧ A.ContainsDyn (ks.map Dyn.hashable) = Except.ok (A.Contains ks)
    ∧ A.IntersectDyn B = Except.ok (A.Intersect B)
    ∧ A.UnionDyn B = Except.ok (A.Union B)
    ∧ A.DifferenceDyn B = Except.ok (A.Difference B) := by
  refine ⟨set_addDyn_hashable A ks, set_removeDyn_hashable A ks, rfl,
    set_containsDyn_hashable A ks, ?_, ?_, ?_⟩
  · exact set_intersectLoop_hashable A (NewSet []) B.m.keys
  · unfold set.UnionDyn set.Union set.ValuesDyn
    simp only [set_addDyn_hashable]
    rfl
  · exact set_differenceLoop_hashable B (NewSet []) A.m.keys

end DynClaimTheorems
section ZipLemmas

theorem mem_zip_map_self {α β : Type} (f : α → β) (l : List α) (p : α × β)
    (hp : p ∈ l.zip (l.map f)) : p.2 = f p.1 := by
  induction l with
  | nil => simp at hp
  | cons a l ih =>
    simp only [List.map_cons, List.zip_cons_cons, List.mem_cons] at hp
    rcases hp with rfl | hp
    · rfl
    · exact ih hp

end ZipLemmas

section MultiMapLemmas

variable {K V : Type} [DecidableEq K] [DecidableEq V]

theorem multiMap_set_of_absent (mmap : multiMap K V) (k : K) (v : V)
    (h : mmap.m.lookup k = none) : mmap.Set k v = Except.ok (false, mmap) := by
  simp [multiMap.Set, h, MapRef.index]

theorem multiMap_set_of_present (mmap : multiMap K V) (k : K) (v : V) (vm : GoMap V Bool)
    (h : mmap.m.lookup k = some vm) :
    mmap.Set k v = Except.ok (true,
      { m := mmap.m.insert k ((GoMap.make).insert v true),
        totalLen := wrapInt (mmap.totalLen + 1) }) := by
  simp [multiMap.Set, h]

theorem goMap_eraseAll_entries_subset {W : Type} (ks : List K) (m : GoMap K W) :
    (ks.foldl (fun s k => s.erase k) m).entries ⊆ m.entries := by
  induction ks generalizing m with
  | nil => exact List.Subset.refl _
  | cons k ks ih =>
    rw [List.foldl_cons]
    exact (ih (m.erase k)).trans (List.kerase_sublist k m.entries).subset

end MultiMapLemmas

section InvariantClaimTheorems

variable {K V : Type} [DecidableEq K] [DecidableEq V]

/-- C17: the claim says that in guarded mode every mutating method holds the exclusive lock
while it changes the container.  On a guarded map, `Remove` acquires the shared lock with
`RLock` and deletes the key under it, whereas `Set` and `RemoveAll` of the map, and `Add`,
`Remove` and `RemoveAll` of a guarded set, use `Lock`. -/
theorem syncMap_remove_writes_under_shared_lock :
    guardedSyncMap.Block = true
    ∧ guardedSyncMap.RemoveEvents "a"
        = [MutexEvent.RLock, MutexEvent.Write, MutexEvent.RUnlock]
    ∧ writesExclusive Held.free (guardedSyncMap.RemoveEvents "a") = false
    ∧ guardedSyncMap.SetEvents "b" (some 2)
        = [MutexEvent.Lock, MutexEvent.Write, MutexEvent.Unlock]
    ∧ writesExclusive Held.free (guardedSyncMap.SetEvents "b" (some 2)) = true
    ∧ writesExclusive Held.free guardedSyncMap.RemoveAllEvents = true
    ∧ writesExclusive Held.free ((NewBlockSet [1, 2] : set Nat).AddEvents [3]) = true
    ∧ writesExclusive Held.free ((NewBlockSet [1, 2] : set Nat).RemoveEvents [1]) = true
    ∧ writesExclusive Held.free (NewBlockSet [1, 2] : set Nat).RemoveAllEvents = true := by
  decide

/-- C18: for every multimap in which each present key has a non-empty value set, `Set(k,v)`
returns, and it, `Remove(k)` and `RemoveAll()` each yield a multimap in which each present
key has a non-empty value set. -/
theorem multiMap_valueSets_stay_nonEmpty (mmap : multiMap K V) (k : K) (v : V)
    (h : mmap.valueSetsNonEmpty = true) :
    (∃ r, mmap.Set k v = Except.ok r ∧ r.2.valueSetsNonEmpty = true)
    ∧ (mmap.Remove k).2.valueSetsNonEmpty = true
    ∧ (mmap.RemoveAll).2.valueSetsNonEmpty = true := by
  simp only [multiMap.valueSetsNonEmpty, List.all_eq_true, decide_eq_true_eq] at h ⊢
  refine ⟨?_, ?_, ?_⟩
  · cases hl : mmap.m.lookup k with
    | none => exact ⟨_, multiMap_set_of_absent mmap k v hl, h⟩
    | some vm =>
      refine ⟨_, multiMap_set_of_present mmap k v vm hl, ?_⟩
      intro e he
      simp only [AList.insert_entries, List.mem_cons] at he
      rcases he with rfl | he
      · simp [GoMap.len, GoMap.make]
      · exact h e ((List.kerase_sublist k mmap.m.entries).subset he)
  · intro e he
    exact h e ((List.kerase_sublist k mmap.m.entries).subset he)
  · intro e he
    exact h e (goMap_eraseAll_entries_subset mmap.m.keys mmap.m he)

/-- Witness of C18: in the multimap with `"v1"` under `"k"` every present key has a
non-empty value set, and so it is after `Set("k", "v2")`, `Remove("k")` and `RemoveAll()`. -/
theorem multiMap_valueSets_stay_nonEmpty_witness :
    oneValueMultiMap.valueSetsNonEmpty = true
    ∧ (∃ r, oneValueMultiMap.Set "k" "v2" = Except.ok r ∧ r.2.valueSetsNonEmpty = true)
    ∧ (oneValueMultiMap.Remove "k").2.valueSetsNonEmpty = true
    ∧ (oneValueMultiMap.RemoveAll).2.valueSetsNonEmpty = true :=
  ⟨by decide, multiMap_valueSets_stay_nonEmpty oneValueMultiMap "k" "v2" (by decide)⟩

/-- C19: starting from a multimap whose map is empty and whose counter is 0, every finite
sequence of `Set`, `Remove` and `RemoveAll` calls runs to its end and leaves the multimap
as it was: `Keys()` is empty, `Len()` is 0, `Exists(k)` is 0 and `Value(k)` is empty for
every key `k`, and every `Set` call of the sequence returned false. -/
theorem multiMap_stays_empty (mmap : multiMap K V) (calls : List (MultiMapCall K V))
    (hm : mmap.Keys = []) (hlen : mmap.totalLen = 0) :
    ∃ (results : List Bool) (final : multiMap K V),
      mmap.run calls = Except.ok (results, final)
      ∧ final = mmap
      ∧ final.Keys = []
      ∧ final.Len = 0
      ∧ (∀ k : K, final.Exists k = 0 ∧ final.Value k = [])
      ∧ results.length = calls.length
      ∧ (∀ p ∈ calls.zip results, p.1.isSet = true → p.2 = false) := by
  have hentries : mmap.m.entries = [] := by
    have : mmap.m.entries.map Sigma.fst = [] := hm
    simpa using this
  have hempty : mmap.m = ∅ := AList.ext hentries
  have hlookup : ∀ k : K, mmap.m.lookup k = none := by
    intro k; rw [hempty]; exact AList.lookup_empty k
  have hperform : ∀ c : MultiMapCall K V,
      mmap.perform c = Except.ok (emptyResult c, mmap) := by
    intro c
    cases c with
    | Set key value =>
      simp [multiMap.perform, emptyResult, multiMap_set_of_absent mmap key value (hlookup key)]
    | Remove key =>
      have herase : mmap.m.erase key = mmap.m := by
        rw [hempty]; rfl
      simp [multiMap.perform, emptyResult, multiMap.Remove, hlookup key, herase]
    | RemoveAll =>
      have hkeys : mmap.m.keys = [] := hm
      simp [multiMap.perform, emptyResult, multiMap.RemoveAll, hkeys, GoMap.len, hentries]
  have hrun : mmap.run calls = Except.ok (calls.map emptyResult, mmap) := by
    induction calls with
    | nil => rfl
    | cons c cs ih => simp [multiMap.run, hperform c, ih]
  refine ⟨_, _, hrun, rfl, hm, hlen, ?_, by simp, ?_⟩
  · intro k
    simp [multiMap.Exists, multiMap.Value, hlookup k, MapRef.len, MapRef.rangeKeys]
  · intro p hp hset
    rw [mem_zip_map_self emptyResult calls p hp]
    cases hc : p.1 with
    | Set key value => rfl
    | Remove key => simp [hc, MultiMapCall.isSet] at hset
    | RemoveAll => simp [hc, MultiMapCall.isSet] at hset

/-- Witness of C19: on the empty multimap the calls `Set("k","v1")`, `Set("k","v2")`,
`Remove("k")`, `RemoveAll()` run to their end and leave it empty, with `Len()` 0. -/
theorem multiMap_stays_empty_witness :
    ∃ (results : List Bool) (final : multiMap String String),
      emptyMultiMap.run [MultiMapCall.Set "k" "v1", MultiMapCall.Set "k" "v2",
        MultiMapCall.Remove "k", MultiMapCall.RemoveAll] = Except.ok (results, final)
      ∧ final.Keys = []
      ∧ final.Len = 0 := by
  obtain ⟨results, final, hrun, _, hkeys, hlen, _⟩ :=
    multiMap_stays_empty emptyMultiMap [MultiMapCall.Set "k" "v1", MultiMapCall.Set "k" "v2",
      MultiMapCall.Remove "k", MultiMapCall.RemoveAll] (by decide) (by decide)
  exact ⟨results, final, hrun, hkeys, hlen⟩

end InvariantClaimTheorems
section StoreBasics

variable {K : Type}

theorem setStore_lt_of_get (σ : SetStore K) (p : Nat) (s : set K) (h : σ[p]? = some s) :
    p < σ.length := by
  by_contra hge
  rw [List.getElem?_eq_none (Nat.le_of_not_lt hge)] at h
  cases h

theorem setStore_update_ne (σ : SetStore K) (p q : Nat) (f : set K → set K) (h : p ≠ q) :
    (σ.update p f)[q]? = σ[q]? := by
  unfold SetStore.update
  cases hp : σ[p]? with
  | none => rfl
  | some s => simp [List.getElem?_set_ne h]

theorem setStore_update_eq (σ : SetStore K) (p : Nat) (f : set K → set K) (s : set K)
    (h : σ[p]? = some s) : (σ.update p f)[p]? = some (f s) := by
  unfold SetStore.update
  have hlt : p < σ.length := setStore_lt_of_get σ p s h
  simp [h, List.getElem?_set, hlt]

theorem setStore_append_get (σ : SetStore K) (x : set K) (p : Nat) (s : set K)
    (h : σ[p]? = some s) : (σ ++ [x])[p]? = some s := by
  rw [List.getElem?_append_left (setStore_lt_of_get σ p s h)]
  exact h

end StoreBasics

section StoreLemmas

variable {K : Type} [DecidableEq K]

theorem setStore_newSet_nil (σ : SetStore K) :
    SetStore.NewSet σ [] = (σ.length, σ ++ [NewSet []]) := by
  simp [SetStore.NewSet, SetStore.newSet, NewSet, newSet]

/-- The frame of a loop that only adds to the cell `ns`: the cells `a` and `b` keep their
contents and the cell `ns` holds what the loop on a single set computes. -/
theorem setStore_loop_frame (cond : SetStore K → K → Bool) (g : K → Bool)
    (a b ns : Nat) (A B : set K) (hna : ns ≠ a) (hnb : ns ≠ b)
    (hcond : ∀ τ : SetStore K, τ[a]? = some A → τ[b]? = some B → ∀ v, cond τ v = g v)
    (vs : List K) (τ : SetStore K) (N : set K)
    (ha : τ[a]? = some A) (hb : τ[b]? = some B) (hn : τ[ns]? = some N) :
    (vs.foldl (fun σ v => if cond σ v then SetStore.Add σ ns [v] else σ) τ)[a]? = some A
    ∧ (vs.foldl (fun σ v => if cond σ v then SetStore.Add σ ns [v] else σ) τ)[b]? = some B
    ∧ (vs.foldl (fun σ v => if cond σ v then SetStore.Add σ ns [v] else σ) τ)[ns]?
        = some (vs.foldl (fun s v => if g v then s.Add [v] else s) N) := by
  induction vs generalizing τ N with
  | nil => exact ⟨ha, hb, hn⟩
  | cons v vs ih =>
    simp only [List.foldl_cons, hcond τ ha hb v]
    by_cases hg : g v = true
    · simp only [hg, if_true]
      apply ih
      · rw [SetStore.Add, setStore_update_ne _ _ _ _ hna]; exact ha
      · rw [SetStore.Add, setStore_update_ne _ _ _ _ hnb]; exact hb
      · rw [SetStore.Add, setStore_update_eq _ _ _ N hn]
    · simp only [hg]
      exact ih τ N ha hb hn

end StoreLemmas

section StoreClaimTheorems

variable {K : Type} [DecidableEq K]

theorem setStore_fresh_cells (σ : SetStore K) (a b : Nat) (A B : set K)
    (ha : σ[a]? = some A) (hb : σ[b]? = some B) :
    σ.length ≠ a ∧ σ.length ≠ b
    ∧ (σ ++ [(NewSet [] : set K)])[a]? = some A
    ∧ (σ ++ [(NewSet [] : set K)])[b]? = some B
    ∧ (σ ++ [(NewSet [] : set K)])[σ.length]? = some (NewSet []) :=
  ⟨Nat.ne_of_gt (setStore_lt_of_get σ a A ha), Nat.ne_of_gt (setStore_lt_of_get σ b B hb),
    setStore_append_get σ _ a A ha, setStore_append_get σ _ b B hb,
    List.getElem?_concat_length σ _⟩

theorem setStore_intersect_cells (σ : SetStore K) (a b : Nat) (A B : set K)
    (ha : σ[a]? = some A) (hb : σ[b]? = some B) :
    (SetStore.Intersect σ a b).1 = σ.length
    ∧ (SetStore.Intersect σ a b).2[a]? = some A
    ∧ (SetStore.Intersect σ a b).2[b]? = some B
    ∧ (SetStore.Intersect σ a b).2[σ.length]? = some (A.Intersect B) := by
  obtain ⟨hna, hnb, ha1, hb1, hn1⟩ := setStore_fresh_cells σ a b A B ha hb
  have hvs : SetStore.Values (σ ++ [(NewSet [] : set K)]) b = B.Values := by
    simp [SetStore.Values, hb1]
  have h := setStore_loop_frame (fun τ v => SetStore.Exists τ a v)
    (fun v => (A.m.lookup v).isSome) a b σ.length A B hna hnb
    (by intro τ hτ _ v; simp [SetStore.Exists, hτ, set.Exists])
    B.Values (σ ++ [NewSet []]) (NewSet []) ha1 hb1 hn1
  simp only [SetStore.Intersect, setStore_newSet_nil, hvs]
  exact ⟨trivial, h.1, h.2.1, h.2.2⟩

theorem setStore_difference_cells (σ : SetStore K) (a b : Nat) (A B : set K)
    (ha : σ[a]? = some A) (hb : σ[b]? = some B) :
    (SetStore.Difference σ a b).1 = σ.length
    ∧ (SetStore.Difference σ a b).2[a]? = some A
    ∧ (SetStore.Difference σ a b).2[b]? = some B
    ∧ (SetStore.Difference σ a b).2[σ.length]? = some (A.Difference B) := by
  obtain ⟨hna, hnb, ha1, hb1, hn1⟩ := setStore_fresh_cells σ a b A B ha hb
  have hks : SetStore.Values (σ ++ [(NewSet [] : set K)]) a = A.m.keys := by
    simp [SetStore.Values, ha1, set.Values]
  have h := setStore_loop_frame (fun τ k => !(SetStore.Contains τ b [k]))
    (fun k => !(B.Contains [k])) a b σ.length A B hna hnb
    (by intro τ _ hτ v; simp [SetStore.Contains, hτ])
    A.m.keys (σ ++ [NewSet []]) (NewSet []) ha1 hb1 hn1
  simp only [SetStore.Difference, setStore_newSet_nil, hks]
  exact ⟨trivial, h.1, h.2.1, h.2.2⟩

theorem setStore_union_cells (σ : SetStore K) (a b : Nat) (A B : set K)
    (ha : σ[a]? = some A) (hb : σ[b]? = some B) :
    (SetStore.Union σ a b).1 = σ.length
    ∧ (SetStore.Union σ a b).2[a]? = some A
    ∧ (SetStore.Union σ a b).2[b]? = some B
    ∧ (SetStore.Union σ a b).2[σ.length]? = some (A.Union B) := by
  obtain ⟨hna, hnb, ha1, hb1, hn1⟩ := setStore_fresh_cells σ a b A B ha hb
  have hva : SetStore.Values (σ ++ [(NewSet [] : set K)]) a = A.Values := by
    simp [SetStore.Values, ha1]
  have hb2 : (SetStore.Add (σ ++ [(NewSet [] : set K)]) σ.length A.Values)[b]? = some B := by
    rw [SetStore.Add, setStore_update_ne _ _ _ _ hnb]; exact hb1
  have ha2 : (SetStore.Add (σ ++ [(NewSet [] : set K)]) σ.length A.Values)[a]? = some A := by
    rw [SetStore.Add, setStore_update_ne _ _ _ _ hna]; exact ha1
  have hn2 : (SetStore.Add (σ ++ [(NewSet [] : set K)]) σ.length A.Values)[σ.length]?
      = some ((NewSet [] : set K).Add A.Values) := by
    rw [SetStore.Add, setStore_update_eq _ _ _ _ hn1]
  have hvb : SetStore.Values (SetStore.Add (σ ++ [(NewSet [] : set K)]) σ.length A.Values) b
      = B.Values := by
    simp [SetStore.Values, hb2]
  simp only [SetStore.Union, setStore_newSet_nil, hva, hvb]
  refine ⟨trivial, ?_, ?_, ?_⟩
  · rw [SetStore.Add, setStore_update_ne _ _ _ _ hna]; exact ha2
  · rw [SetStore.Add, setStore_update_ne _ _ _ _ hnb]; exact hb2
  · rw [SetStore.Add, setStore_update_eq _ _ _ _ hn2]
    rfl

/-- C20: `Intersect`, `Union` and `Difference` do not modify their operands.  For sets `A`
and `B` at the addresses `a` and `b` of a store, and `op` one of the three methods: after
`op` the cells `a` and `b` still hold `A` and `B` (so `Exists` and `Len` of both are as
before), the returned set is a new cell, and `Add`, `Remove` or `RemoveAll` on the returned
set afterwards leave the cells `a` and `b` as they are. -/
theorem setStore_algebra_keeps_operands (σ : SetStore K) (a b : Nat) (A B : set K)
    (ha : σ[a]? = some A) (hb : σ[b]? = some B)
    (op : SetStore K → Nat → Nat → Nat × SetStore K)
    (hop : op = SetStore.Intersect ∨ op = SetStore.Union ∨ op = SetStore.Difference) :
    (op σ a b).2[a]? = some A
    ∧ (op σ a b).2[b]? = some B
    ∧ (op σ a b).1 ≠ a
    ∧ (op σ a b).1 ≠ b
    ∧ (∀ vs : List K, (SetStore.Add (op σ a b).2 (op σ a b).1 vs)[a]? = some A
        ∧ (SetStore.Add (op σ a b).2 (op σ a b).1 vs)[b]? = some B)
    ∧ (∀ vs : List K, (SetStore.Remove (op σ a b).2 (op σ a b).1 vs)[a]? = some A
        ∧ (SetStore.Remove (op σ a b).2 (op σ a b).1 vs)[b]? = some B)
    ∧ (SetStore.RemoveAll (op σ a b).2 (op σ a b).1)[a]? = some A
    ∧ (SetStore.RemoveAll (op σ a b).2 (op σ a b).1)[b]? = some B := by
  obtain ⟨hna, hnb, _⟩ := setStore_fresh_cells σ a b A B ha hb
  have hcells : (op σ a b).1 = σ.length ∧ (op σ a b).2[a]? = some A
      ∧ (op σ a b).2[b]? = some B := by
    rcases hop with rfl | rfl | rfl
    · exact ⟨(setStore_intersect_cells σ a b A B ha hb).1,
        (setStore_intersect_cells σ a b A B ha hb).2.1,
        (setStore_intersect_cells σ a b A B ha hb).2.2.1⟩
    · exact ⟨(setStore_union_cells σ a b A B ha hb).1,
        (setStore_union_cells σ a b A B ha hb).2.1,
        (setStore_union_cells σ a b A B ha hb).2.2.1⟩
    · exact ⟨(setStore_difference_cells σ a b A B ha hb).1,
        (setStore_difference_cells σ a b A B ha hb).2.1,
        (setStore_difference_cells σ a b A B ha hb).2.2.1⟩
  obtain ⟨hr, ha2, hb2⟩ := hcells
  rw [hr]
  have hframe : ∀ f : set K → set K,
      ((op σ a b).2.update σ.length f)[a]? = some A
      ∧ ((op σ a b).2.update σ.length f)[b]? = some B := by
    intro f
    rw [setStore_update_ne _ _ _ _ hna, setStore_update_ne _ _ _ _ hnb]
    exact ⟨ha2, hb2⟩
  exact ⟨ha2, hb2, hna, hnb, fun vs => hframe _, fun vs => hframe _, (hframe _).1,
    (hframe _).2⟩

/-- Witness of C20: with `{1, 2, 3}` at address 0 and `{2, 3, 5}` at address 1,
`Intersect` leaves both cells as they were and returns a new set, and `Add(9)` on the
returned set leaves the cell 0 as it was. -/
theorem setStore_algebra_keeps_operands_witness :
    (SetStore.Intersect twoSetStore 0 1).2[0]? = some (NewSet [1, 2, 3])
    ∧ (SetStore.Intersect twoSetStore 0 1).2[1]? = some (NewSet [2, 3, 5])
    ∧ (SetStore.Intersect twoSetStore 0 1).1 ≠ 0
    ∧ (SetStore.Add (SetStore.Intersect twoSetStore 0 1).2
        (SetStore.Intersect twoSetStore 0 1).1 [9])[0]? = some (NewSet [1, 2, 3]) := by
  have h := setStore_algebra_keeps_operands twoSetStore 0 1 (NewSet [1, 2, 3])
    (NewSet [2, 3, 5]) rfl rfl SetStore.Intersect (Or.inl rfl)
  exact ⟨h.1, h.2.1, h.2.2.1, (h.2.2.2.2.1 [9]).1⟩

end StoreClaimTheorems
section WithNaNBasics

variable {K V : Type}

theorem drainChan_sends_close {α : Type} (l : List α) :
    drainChan (l.map ChanEvent.send ++ [ChanEvent.close]) = some l := by
  induction l with
  | nil => rfl
  | cons a l ih => simp [drainChan, ih]

theorem withNaN_drain_iter (m : WithNaN.SyncMap K V) :
    drainChan m.Iter
      = some (m.M.range.map (fun e => ({ Key := e.1, Value := e.2 } : MapValue (IKey K) V))) := by
  have h := drainChan_sends_close (m.M.range.map
    (fun e => ({ Key := e.1, Value := e.2 } : MapValue (IKey K) V)))
  rw [List.map_map] at h
  exact h

theorem iKey_val_injective : Function.Injective (IKey.val : K → IKey K) := by
  intro a b h
  cases h
  rfl

theorem iMap_range_keys (m : IMap K V) :
    m.range.map (fun e => e.1)
      = m.table.keys.map IKey.val ++ m.loose.map (fun e => IKey.nan e.1) := by
  simp [IMap.range, AList.keys, List.keys, List.map_map, Function.comp_def]

theorem iKey_filter_selfEqual (ks : List K) (ns : List Nat) :
    (ks.map (IKey.val : K → IKey K) ++ ns.map IKey.nan).filter IKey.selfEqual
      = ks.map IKey.val := by
  rw [List.filter_append]
  have h1 : (ks.map (IKey.val : K → IKey K)).filter IKey.selfEqual = ks.map IKey.val := by
    rw [List.filter_eq_self]
    intro x hx
    obtain ⟨k, _, rfl⟩ := List.mem_map.1 hx
    rfl
  have h2 : (ns.map (IKey.nan : Nat → IKey K)).filter IKey.selfEqual = [] := by
    rw [List.filter_eq_nil_iff]
    intro x hx
    obtain ⟨n, _, rfl⟩ := List.mem_map.1 hx
    simp [IKey.selfEqual]
  rw [h1, h2, List.append_nil]

theorem iMap_len_eq_range_length (m : IMap K V) : IMap.len m = (m.range.length : Int) := by
  simp [IMap.len, IMap.range, GoMap.len]

end WithNaNBasics

section WithNaNLemmas

variable {K V : Type} [DecidableEq K]

theorem withNaN_add_table (S : WithNaN.set K) (vs : List (IKey K)) (k : K) :
    ((S.Add vs).m.table.lookup k).isSome
      = ((S.m.table.lookup k).isSome || decide (IKey.val k ∈ vs)) := by
  induction vs generalizing S with
  | nil => simp [WithNaN.set.Add]
  | cons v vs ih =>
    have step : S.Add (v :: vs)
        = WithNaN.set.Add ({ S with m := S.m.assign v () } : WithNaN.set K) vs := rfl
    rw [step, ih]
    cases v with
    | val k2 =>
      by_cases h : k = k2
      · subst h
        simp [IMap.assign, AList.lookup_insert]
      · have h2 : ¬ (IKey.val k : IKey K) = IKey.val k2 := fun he => h (iKey_val_injective he)
        simp [IMap.assign, AList.lookup_insert_ne h, h, h2]
    | nan bits => simp [IMap.assign]

theorem withNaN_add_loose (S : WithNaN.set K) (vs : List (IKey K)) :
    ((S.Add vs).m.loose.map (fun e => (IKey.nan e.1 : IKey K))).Perm
      (vs.filter (fun v => !v.selfEqual) ++ S.m.loose.map (fun e => IKey.nan e.1)) := by
  induction vs generalizing S with
  | nil => simp [WithNaN.set.Add]
  | cons v vs ih =>
    have step : S.Add (v :: vs)
        = WithNaN.set.Add ({ S with m := S.m.assign v () } : WithNaN.set K) vs := rfl
    rw [step]
    refine (ih _).trans ?_
    cases v with
    | val k2 => simp [IMap.assign, IKey.selfEqual]
    | nan bits =>
      simp only [IMap.assign, List.map_cons, IKey.selfEqual, Bool.not_false, List.filter_cons_of_pos,
        List.cons_append]
      exact List.perm_middle

theorem withNaN_newSet_eq_add (vs : List (IKey K)) :
    WithNaN.NewSet vs
      = WithNaN.set.Add ({ m := IMap.make, block := false } : WithNaN.set K) vs := by
  unfold WithNaN.NewSet WithNaN.newSet
  cases vs with
  | nil => rfl
  | cons v vs => simp

theorem withNaN_newSet_values_perm (vs : List (IKey K)) :
    (WithNaN.NewSet vs).Values.Perm
      ((vs.filter IKey.selfEqual).dedup ++ vs.filter (fun v => !v.selfEqual)) := by
  rw [WithNaN.set.Values, iMap_range_keys, withNaN_newSet_eq_add]
  apply List.Perm.append
  · rw [List.perm_ext_iff_of_nodup
      ((AList.keys_nodup _).map iKey_val_injective) (List.nodup_dedup _)]
    intro x
    rw [List.mem_dedup, List.mem_filter, List.mem_map]
    constructor
    · rintro ⟨k, hk, rfl⟩
      have hmem := AList.lookup_isSome.2 (AList.mem_keys.2 hk)
      rw [withNaN_add_table] at hmem
      simp [IMap.make, GoMap.make] at hmem
      exact ⟨hmem, rfl⟩
    · rintro ⟨hx, hself⟩
      cases x with
      | nan bits => simp [IKey.selfEqual] at hself
      | val k =>
        refine ⟨k, ?_, rfl⟩
        apply AList.mem_keys.1
        apply AList.lookup_isSome.1
        rw [withNaN_add_table]
        simp [hx]
  · have h := withNaN_add_loose ({ m := IMap.make, block := false } : WithNaN.set K) vs
    simpa [IMap.make] using h

theorem syncMap_agrees_withNaN [Inhabited V] (m : SyncMap K V) (k : K) (v : V) :
    m.toWithNaN.Set (IKey.val k) v = (m.Set k v).toWithNaN
    ∧ m.toWithNaN.Remove (IKey.val k) = (m.Remove k).toWithNaN
    ∧ m.toWithNaN.Exists (IKey.val k) = m.Exists k
    ∧ m.toWithNaN.Value (IKey.val k) = m.Value k
    ∧ m.toWithNaN.Len = m.Len := by
  refine ⟨rfl, rfl, rfl, rfl, ?_⟩
  simp [SyncMap.toWithNaN, WithNaN.SyncMap.Len, WithNaN.SyncMap.len, IMap.len, SyncMap.Len,
    SyncMap.len]

theorem set_add_agrees_withNaN (S : set K) (ks : List K) :
    S.toWithNaN.Add (ks.map IKey.val) = (S.Add ks).toWithNaN := by
  induction ks generalizing S with
  | nil => rfl
  | cons k ks ih =>
    have step : S.toWithNaN.Add ((k :: ks).map IKey.val)
        = WithNaN.set.Add (({ S with m := S.m.insert k () } : set K).toWithNaN)
            (ks.map IKey.val) := rfl
    rw [step, ih]
    rfl

theorem set_agrees_withNaN (S : set K) (k : K) :
    S.toWithNaN.Exists (IKey.val k) = S.Exists k
    ∧ S.toWithNaN.Values = S.Values.map IKey.val
    ∧ S.toWithNaN.Len = S.Len := by
  refine ⟨rfl, ?_, ?_⟩
  · simp [set.toWithNaN, WithNaN.set.Values, iMap_range_keys, set.Values]
  · simp [set.toWithNaN, WithNaN.set.Len, WithNaN.set.len, IMap.len, set.Len, set.len]

end WithNaNLemmas

section WithNaNClaimTheorems

variable {K V : Type} [DecidableEq K]

/-- C10, as stated, fails: after `Set(NaN, 1)` on a new map, `Exists(NaN)` is false and
`Value(NaN)` is nil, not 1. -/
theorem syncMap_set_nan_not_found :
    ((WithNaN.New false : WithNaN.SyncMap String (Option Int)).Set (IKey.nan 0)
        (some 1)).Exists (IKey.nan 0) = false
    ∧ ((WithNaN.New false : WithNaN.SyncMap String (Option Int)).Set (IKey.nan 0)
        (some 1)).Value (IKey.nan 0) ≠ some 1 := by
  decide

/-- C10, amended: for every map `m`, value `v` and key `k` that is equal to itself: after
`m.Set(k, v)`, `Value(k)` is `v` and `Exists(k)` is true; every other key keeps its `Exists`
and `Value`; and `Len()` is unchanged if `k` was present and grows by 1 if `k` was absent.
For a key that is not equal to itself, `Set` adds an entry that is not found: `Exists` of
that key stays false, every key keeps its `Exists` and `Value`, and `Len()` grows by 1. -/
theorem syncMap_set_upserts_self_equal [Inhabited V] (m : WithNaN.SyncMap K V) (k : K)
    (v : V) (bits : Nat) :
    (m.Set (IKey.val k) v).Value (IKey.val k) = v
    ∧ (m.Set (IKey.val k) v).Exists (IKey.val k) = true
    ∧ (∀ k2 : IKey K, k2 ≠ IKey.val k →
        (m.Set (IKey.val k) v).Exists k2 = m.Exists k2
        ∧ (m.Set (IKey.val k) v).Value k2 = m.Value k2)
    ∧ (m.Set (IKey.val k) v).Len
        = (if m.Exists (IKey.val k) = true then m.Len else m.Len + 1)
    ∧ (m.Set (IKey.nan bits) v).Exists (IKey.nan bits) = false
    ∧ (∀ k2 : IKey K, (m.Set (IKey.nan bits) v).Exists k2 = m.Exists k2
        ∧ (m.Set (IKey.nan bits) v).Value k2 = m.Value k2)
    ∧ (m.Set (IKey.nan bits) v).Len = m.Len + 1 := by
  refine ⟨?_, ?_, ?_, ?_, rfl, ?_, ?_⟩
  · simp [WithNaN.SyncMap.Set, WithNaN.SyncMap.Value, IMap.assign, IMap.index,
      AList.lookup_insert]
  · simp [WithNaN.SyncMap.Set, WithNaN.SyncMap.Exists, IMap.assign, IMap.index,
      AList.lookup_insert]
  · intro k2 hk
    cases k2 with
    | nan b => exact ⟨rfl, rfl⟩
    | val k3 =>
      have hne : k3 ≠ k := fun h => hk (by rw [h])
      simp [WithNaN.SyncMap.Set, WithNaN.SyncMap.Exists, WithNaN.SyncMap.Value, IMap.assign,
        IMap.index, AList.lookup_insert_ne hne]
  · simp only [WithNaN.SyncMap.Set, WithNaN.SyncMap.Len, WithNaN.SyncMap.len,
      WithNaN.SyncMap.Exists, IMap.assign, IMap.index, IMap.len, goMap_len_insert]
    split <;> omega
  · intro k2
    cases k2 with
    | nan b => exact ⟨rfl, rfl⟩
    | val k3 => exact ⟨rfl, rfl⟩
  · simp only [WithNaN.SyncMap.Set, WithNaN.SyncMap.Len, WithNaN.SyncMap.len, IMap.assign,
      IMap.len, List.length_cons]
    push_cast
    omega

/-- Witness of C10, amended: on the map holding `"a"`, `"b"`, `"c"` and on the map holding
a NaN key, `Set("b", 7)` makes `Value("b")` equal to 7; on the first `Len()` stays 3 and
`"a"` keeps its value, on the second `Len()` grows from 1 to 2. -/
theorem syncMap_set_upserts_self_equal_witness :
    (abcMap.Set (IKey.val "b") (some 7)).Value (IKey.val "b") = some 7
    ∧ (abcMap.Set (IKey.val "b") (some 7)).Value (IKey.val "a") = some 1
    ∧ (abcMap.Set (IKey.val "b") (some 7)).Len = 3
    ∧ (nanMap.Set (IKey.val "b") (some 7)).Value (IKey.val "b") = some 7
    ∧ (nanMap.Set (IKey.val "b") (some 7)).Len = 2 := by
  have h := syncMap_set_upserts_self_equal abcMap "b" (some 7) 0
  have hn := syncMap_set_upserts_self_equal nanMap "b" (some 7) 0
  refine ⟨h.1, ?_, ?_, hn.1, ?_⟩
  · rw [(h.2.2.1 (IKey.val "a") (by decide)).2]; decide
  · rw [h.2.2.2.1]; decide
  · rw [hn.2.2.2.1]; decide

/-- C12, as stated, fails: the map holding only the key NaN sends the pair `(NaN, 1)`, and
`Exists(NaN)` is false. -/
theorem syncMap_iter_sends_nan_pair :
    drainChan nanMap.Iter = some [{ Key := IKey.nan 0, Value := some 1 }]
    ∧ nanMap.Exists (IKey.nan 0) = false := by
  exact ⟨rfl, rfl⟩

/-- C12, amended: for every map `m`, the goroutine of `m.Iter()` closes the channel, and
the sequence of pairs received until then has exactly `m.Len()` entries; no two of its
entries have the same key that is equal to itself; and for every key `k` that is equal to
itself it contains the pair `(k, v)` if and only if `m.Exists(k)` and `m.Value(k) == v`. -/
theorem syncMap_iter_exhaustive_self_equal [Inhabited V] (m : WithNaN.SyncMap K V) :
    ∃ pairs : List (MapValue (IKey K) V),
      drainChan m.Iter = some pairs
      ∧ (pairs.length : Int) = m.Len
      ∧ ((pairs.map MapValue.Key).filter IKey.selfEqual).Nodup
      ∧ (∀ (k : K) (v : V), ({ Key := IKey.val k, Value := v } : MapValue (IKey K) V) ∈ pairs
          ↔ (m.Exists (IKey.val k) = true ∧ m.Value (IKey.val k) = v)) := by
  refine ⟨_, withNaN_drain_iter m, ?_, ?_, ?_⟩
  · rw [List.length_map]
    exact (iMap_len_eq_range_length m.M).symm
  · rw [List.map_map]
    have hkeys := iMap_range_keys m.M
    have hcomp : (MapValue.Key ∘ fun e : IKey K × V =>
        ({ Key := e.1, Value := e.2 } : MapValue (IKey K) V)) = fun e => e.1 := rfl
    rw [hcomp, hkeys]
    have hloose : m.M.loose.map (fun e => (IKey.nan e.1 : IKey K))
        = (m.M.loose.map (fun e => e.1)).map IKey.nan := by
      rw [List.map_map]; rfl
    rw [hloose, iKey_filter_selfEqual]
    exact (AList.keys_nodup _).map iKey_val_injective
  · intro k v
    have hmem : ({ Key := IKey.val k, Value := v } : MapValue (IKey K) V)
        ∈ m.M.range.map (fun e => ({ Key := e.1, Value := e.2 } : MapValue (IKey K) V))
        ↔ m.M.table.lookup k = some v := by
      rw [List.mem_map]
      constructor
      · rintro ⟨⟨k2, v2⟩, he, heq⟩
        simp only [MapValue.mk.injEq] at heq
        obtain ⟨rfl, rfl⟩ := heq
        simp only [IMap.range, List.mem_append, List.mem_map, Prod.mk.injEq] at he
        rcases he with ⟨⟨k3, v3⟩, he, hk, hv⟩ | ⟨e, _, hk, _⟩
        · cases hk
          subst hv
          exact AList.mem_lookup_iff.2 he
        · cases hk
      · intro h
        refine ⟨(IKey.val k, v), ?_, rfl⟩
        simp only [IMap.range, List.mem_append, List.mem_map]
        exact Or.inl ⟨⟨k, v⟩, AList.mem_lookup_iff.1 h, rfl⟩
    rw [hmem]
    unfold WithNaN.SyncMap.Exists WithNaN.SyncMap.Value
    simp only [IMap.index]
    cases hl : m.M.table.lookup k with
    | none => simp
    | some w => simp

/-- Witness of C12, amended: the map with the keys `"a"`, `"b"`, `"c"` yields exactly 3
pairs before the channel is closed. -/
theorem syncMap_iter_exhaustive_self_equal_witness :
    ∃ pairs : List (MapValue (IKey String) (Option Int)),
      drainChan abcMap.Iter = some pairs ∧ (pairs.length : Int) = 3 := by
  obtain ⟨pairs, hdrain, hlen, _⟩ := syncMap_iter_exhaustive_self_equal abcMap
  refine ⟨pairs, hdrain, ?_⟩
  rw [hlen]
  decide

/-- C13, as stated, fails: `NewSet(NaN, NaN)` has `Len() == 2` and `Values()` holds the
value twice, while the list has one distinct value. -/
theorem newSet_nan_twice_stored_twice :
    (WithNaN.NewSet [IKey.nan 0, IKey.nan 0] : WithNaN.set Nat).Len = 2
    ∧ ¬ (WithNaN.NewSet [IKey.nan 0, IKey.nan 0] : WithNaN.set Nat).Values.Nodup
    ∧ ([IKey.nan 0, IKey.nan 0] : List (IKey Nat)).dedup.length = 1 := by
  decide

/-- C13, amended: for every list `vs` of initial values, `NewSet(vs...).Values()` is a
permutation of the distinct values of `vs` that are equal to themselves, each once, followed
by one entry for every occurrence in `vs` of a value that is not equal to itself, and
`Len()` is the length of `Values()`.  When every value of `vs` is equal to itself,
`Values()` has no duplicates and is a permutation of the distinct values of `vs`, and
`Len()` is the number of distinct values of `vs`. -/
theorem newSet_values_distinct_self_equal (vs : List (IKey K)) :
    (WithNaN.NewSet vs).Values.Perm
      ((vs.filter IKey.selfEqual).dedup ++ vs.filter (fun v => !v.selfEqual))
    ∧ ((WithNaN.NewSet vs).Values.filter IKey.selfEqual).Nodup
    ∧ (WithNaN.NewSet vs).Len = ((WithNaN.NewSet vs).Values.length : Int)
    ∧ ((∀ v ∈ vs, v.selfEqual = true) →
        (WithNaN.NewSet vs).Values.Nodup
        ∧ (WithNaN.NewSet vs).Values.Perm vs.dedup
        ∧ (WithNaN.NewSet vs).Len = (vs.dedup.length : Int)) := by
  have hperm := withNaN_newSet_values_perm vs
  have hlen : (WithNaN.NewSet vs).Len = ((WithNaN.NewSet vs).Values.length : Int) := by
    simp only [WithNaN.set.Len, WithNaN.set.len, WithNaN.set.Values, List.length_map]
    exact iMap_len_eq_range_length _
  refine ⟨hperm, ?_, hlen, ?_⟩
  · rw [WithNaN.set.Values, iMap_range_keys]
    have hloose : (WithNaN.NewSet vs).m.loose.map (fun e => (IKey.nan e.1 : IKey K))
        = ((WithNaN.NewSet vs).m.loose.map (fun e => e.1)).map IKey.nan := by
      rw [List.map_map]; rfl
    rw [hloose, iKey_filter_selfEqual]
    exact (AList.keys_nodup _).map iKey_val_injective
  · intro hall
    have h1 : vs.filter IKey.selfEqual = vs := List.filter_eq_self.2 hall
    have h2 : vs.filter (fun v => !v.selfEqual) = [] := by
      rw [List.filter_eq_nil_iff]
      intro v hv
      simp [hall v hv]
    rw [h1, h2, List.append_nil] at hperm
    refine ⟨hperm.nodup_iff.2 (List.nodup_dedup vs), hperm, ?_⟩
    rw [hlen, hperm.length_eq]

/-- Witness of C13, amended: `NewSet(1,2,3,2,1)` has `Len() == 3`; and after `NewSet(1,2,3)`
and `Add(4)`, `Len() == 4`, and after `Remove(1)`, `Values()` is a permutation of
`[2,3,4]`. -/
theorem newSet_values_distinct_self_equal_witness :
    (WithNaN.NewSet [IKey.val 1, IKey.val 2, IKey.val 3, IKey.val 2, IKey.val 1]
        : WithNaN.set Nat).Len = 3
    ∧ ((WithNaN.NewSet [IKey.val 1, IKey.val 2, IKey.val 3] : WithNaN.set Nat).Add
        [IKey.val 4]).Len = 4
    ∧ (((WithNaN.NewSet [IKey.val 1, IKey.val 2, IKey.val 3] : WithNaN.set Nat).Add
        [IKey.val 4]).Remove [IKey.val 1]).Values.Perm [IKey.val 2, IKey.val 3, IKey.val 4] := by
  refine ⟨?_, by decide, by decide⟩
  rw [((newSet_values_distinct_self_equal
    ([IKey.val 1, IKey.val 2, IKey.val 3, IKey.val 2, IKey.val 1] : List (IKey Nat))).2.2.2
    (by decide)).2.2]
  decide

end WithNaNClaimTheorems
